import Mathlib

/-!
Verification of the TradingBots deep-test engine (backtester, metrics,
validation layer) against its natural-language specification.

Shallow embedding conventions:
* pandas Series values are rationals; NaN is modelled by `Option ℚ`
  (`none` = NaN), with NaN-propagating arithmetic (`omul`, `osub`).
* Timestamps are rationals measured in (fractional) years, so that
  `pd.DateOffset(years=k)` is exact addition of `k` and the elapsed-years
  quantity `(t2 - t1).days / 365.25` of `compute_performance` is modelled
  by the exact year difference `t2 - t1` (the integer-day truncation is
  elided; no claim below depends on the numeric value of CAGR).
* Python float exponentiation `**` in CAGR is modelled by real-number
  `Real.rpow`; everything else is exact rational arithmetic.
* Exceptions are modelled by `Except Err`; the spec's error kinds
  `MissingDataError` / `EmptySeriesError` / `EmptyGridError` correspond to
  the `ValueError`s / failing `assert` of the source.
-/

/-- Error kinds raised by the engine (spec §7), plus the Python `KeyError`
from `df["RetSimple"]` / `df["Close"]` column access and the pandas
`ValueError` for a nonpositive rolling window. -/
inductive Err where
  | missingData
  | emptySeries
  | emptyGrid
  | keyError
  | valueError
  deriving DecidableEq, Repr

/-- One row of the OHLCV-plus-returns table: timestamp, `Close` value and
`RetSimple` value (only the columns the claims touch; `none` = NaN). -/
structure Row where
  ts : ℚ
  close : Option ℚ
  ret : Option ℚ
  deriving DecidableEq, Repr

/-- A pandas `DataFrame` as used by the engine: its rows plus flags for
whether the `Close` / `RetSimple` columns are present at all (a present
column with all-NaN values is different from an absent column). -/
structure DF where
  rows : List Row
  hasClose : Bool
  hasRet : Bool
  deriving DecidableEq, Repr

/-- The frame's index (`df.index`). -/
def DF.index (df : DF) : List ℚ := df.rows.map (·.ts)

/-- The `RetSimple` column values (without the presence flag). -/
def ret_col (df : DF) : List (Option ℚ) := df.rows.map (·.ret)

/-- The `Close` column values. -/
def close_col (df : DF) : List (Option ℚ) := df.rows.map (·.close)

/-- `CostModel` from `backtester.py`: commission and slippage, both in
basis points, applied per unit turnover. -/
structure CostModel where
  commission_bps : ℚ
  slippage_bps : ℚ
  deriving DecidableEq, Repr

/-- A position series as supplied by a strategy: its own index paired with
possibly-NaN values (`position.reindex(df.index)` aligns it later). -/
abbrev PosSeries := List (ℚ × Option ℚ)

/-- NaN-propagating multiplication of series values. -/
def omul : Option ℚ → Option ℚ → Option ℚ
  | some a, some b => some (a * b)
  | _, _ => none

/-- NaN-propagating subtraction of series values. -/
def osub : Option ℚ → Option ℚ → Option ℚ
  | some a, some b => some (a - b)
  | _, _ => none

/-- `series.shift(1)` followed by `.fillna(0.0)`: drop the last element,
prepend 0 (empty series stays empty, as in pandas). -/
def shift1 : List ℚ → List ℚ
  | [] => []
  | x :: xs => 0 :: (x :: xs).dropLast

/-- `position.reindex(df.index).fillna(0.0)` at one timestamp: the value at
the first matching label, defaulting to 0 when the label is missing or the
stored value is NaN.  (pandas raises on duplicate labels; theorems that
rely on this lookup carry a no-duplicate hypothesis where faithfulness
requires it.) -/
def lookupVal (position : PosSeries) (t : ℚ) : ℚ :=
  match position.find? (fun p => p.1 = t) with
  | some (_, some v) => v
  | _ => 0

/-- `pos`: the realized position series values, aligned to `df.index`. -/
def pos_of (df : DF) (position : PosSeries) : List ℚ :=
  df.rows.map (fun r => lookupVal position r.ts)

/-- `pos_shift = pos.shift(1).fillna(0.0)`. -/
def pos_shift_of (df : DF) (position : PosSeries) : List ℚ :=
  shift1 (pos_of df position)

/-- `pnl = pos_shift * ret`. -/
def pnl_of (df : DF) (position : PosSeries) : List (Option ℚ) :=
  List.zipWith (fun p r => omul (some p) r) (pos_shift_of df position) (ret_col df)

/-- `turnover = (pos - pos_shift).abs()`. -/
def turnover_of (df : DF) (position : PosSeries) : List ℚ :=
  List.zipWith (fun p q => |p - q|) (pos_of df position) (pos_shift_of df position)

/-- `costs = turnover * ((commission_bps + slippage_bps) / 1e4)`. -/
def costs_of (df : DF) (position : PosSeries) (cost : CostModel) : List ℚ :=
  (turnover_of df position).map
    (fun t => t * ((cost.commission_bps + cost.slippage_bps) / 10000))

/-- `net_ret = pnl - costs`. -/
def net_of (df : DF) (position : PosSeries) (cost : CostModel) : List (Option ℚ) :=
  List.zipWith (fun pn c => osub pn (some c)) (pnl_of df position) (costs_of df position cost)

/-- pandas `cumprod()` with its default `skipna=True`: NaN entries stay NaN
and the running product continues past them. -/
def cumprod1 (acc : ℚ) : List (Option ℚ) → List (Option ℚ)
  | [] => []
  | none :: xs => none :: cumprod1 acc xs
  | some x :: xs => some (acc * x) :: cumprod1 (acc * x) xs

/-- `equity = (1 + net_ret).cumprod() * starting_equity`. -/
def equity_of (df : DF) (position : PosSeries) (cost : CostModel) (se : ℚ) :
    List (Option ℚ) :=
  (cumprod1 1 ((net_of df position cost).map (fun o => o.map (fun x => 1 + x)))).map
    (fun o => o.map (fun x => x * se))

/-- `BacktestResult` from `backtester.py`: the five result series, each
paired with its index. -/
structure BacktestResult where
  equity : List (ℚ × Option ℚ)
  returns : List (ℚ × Option ℚ)
  position : List (ℚ × ℚ)
  turnover : List (ℚ × ℚ)
  costs : List (ℚ × ℚ)
  deriving DecidableEq, Repr

/-- `run_backtest` from `backtester.py`: raises `MissingDataError` when the
`RetSimple` column is absent or entirely NaN (on an empty frame the
`isna().all()` check is vacuously true), otherwise assembles the five
result series over `df.index`. -/
def run_backtest (df : DF) (position : PosSeries) (cost : CostModel) (se : ℚ) :
    Except Err BacktestResult :=
  if !df.hasRet || (ret_col df).all (·.isNone) then
    .error .missingData
  else
    .ok { equity := df.index.zip (equity_of df position cost se)
          returns := df.index.zip (net_of df position cost)
          position := df.index.zip (pos_of df position)
          turnover := df.index.zip (turnover_of df position)
          costs := df.index.zip (costs_of df position cost) }

section BasicLemmas

@[simp] lemma shift1_length (xs : List ℚ) : (shift1 xs).length = xs.length := by
  cases xs with
  | nil => rfl
  | cons x xs => simp [shift1]

@[simp] lemma pos_of_length (df : DF) (position : PosSeries) :
    (pos_of df position).length = df.rows.length := by
  simp [pos_of]

@[simp] lemma pos_shift_of_length (df : DF) (position : PosSeries) :
    (pos_shift_of df position).length = df.rows.length := by
  simp [pos_shift_of]

@[simp] lemma ret_col_length (df : DF) : (ret_col df).length = df.rows.length := by
  simp [ret_col]

@[simp] lemma pnl_of_length (df : DF) (position : PosSeries) :
    (pnl_of df position).length = df.rows.length := by
  simp [pnl_of]

@[simp] lemma turnover_of_length (df : DF) (position : PosSeries) :
    (turnover_of df position).length = df.rows.length := by
  simp [turnover_of]

@[simp] lemma costs_of_length (df : DF) (position : PosSeries) (cost : CostModel) :
    (costs_of df position cost).length = df.rows.length := by
  simp [costs_of]

@[simp] lemma net_of_length (df : DF) (position : PosSeries) (cost : CostModel) :
    (net_of df position cost).length = df.rows.length := by
  simp [net_of]

@[simp] lemma cumprod1_length (acc : ℚ) (xs : List (Option ℚ)) :
    (cumprod1 acc xs).length = xs.length := by
  induction xs generalizing acc with
  | nil => rfl
  | cons x xs ih => cases x <;> simp [cumprod1, ih]

@[simp] lemma equity_of_length (df : DF) (position : PosSeries) (cost : CostModel) (se : ℚ) :
    (equity_of df position cost se).length = df.rows.length := by
  simp [equity_of]

@[simp] lemma index_length (df : DF) : df.index.length = df.rows.length := by
  simp [DF.index]

/-- On success, `run_backtest` returns exactly the assembled series. -/
lemma run_backtest_ok_iff (df : DF) (position : PosSeries) (cost : CostModel) (se : ℚ)
    (res : BacktestResult) :
    run_backtest df position cost se = .ok res ↔
      (df.hasRet = true ∧ ¬ (ret_col df).all (·.isNone) = true ∧
        res = { equity := df.index.zip (equity_of df position cost se)
                returns := df.index.zip (net_of df position cost)
                position := df.index.zip (pos_of df position)
                turnover := df.index.zip (turnover_of df position)
                costs := df.index.zip (costs_of df position cost) }) := by
  unfold run_backtest
  by_cases h1 : df.hasRet
  · by_cases h2 : (ret_col df).all (·.isNone)
    · simp [h1, h2]
    · simp [h1, h2]
      constructor
      · intro h; exact h.symm
      · intro h; exact h.symm
  · simp [h1]

end BasicLemmas

section MemLemmas

lemma exists_of_mem_zipWith {α β γ : Type} {f : α → β → γ} {as : List α} {bs : List β}
    {x : γ} (h : x ∈ List.zipWith f as bs) :
    ∃ a ∈ as, ∃ b ∈ bs, x = f a b := by
  induction as generalizing bs with
  | nil => simp at h
  | cons a as ih =>
    cases bs with
    | nil => simp at h
    | cons b bs =>
      simp only [List.zipWith, List.mem_cons] at h
      rcases h with h | h
      · exact ⟨a, by simp, b, by simp, h⟩
      · obtain ⟨a1, ha, b1, hb, rfl⟩ := ih h
        exact ⟨a1, by simp [ha], b1, by simp [hb], rfl⟩

lemma lookupVal_zero (position : PosSeries) (t : ℚ)
    (hpos : ∀ p ∈ position, p.2 = some 0) : lookupVal position t = 0 := by
  unfold lookupVal
  rcases hfind : position.find? (fun p => p.1 = t) with _ | ⟨a, b⟩
  · simp [hfind]
  · have hb := hpos (a, b) (List.mem_of_find?_eq_some hfind)
    simp only at hb
    subst hb
    simp [hfind]

lemma mem_shift1 {xs : List ℚ} {y : ℚ} (hy : y ∈ shift1 xs) : y = 0 ∨ y ∈ xs := by
  cases xs with
  | nil => simp [shift1] at hy
  | cons x xs =>
    simp only [shift1, List.mem_cons] at hy
    rcases hy with h | h
    · exact Or.inl h
    · exact Or.inr (List.dropLast_subset _ h)

lemma cumprod1_one {xs : List (Option ℚ)} (h : ∀ x ∈ xs, x = some 1) :
    ∀ y ∈ cumprod1 1 xs, y = some 1 := by
  induction xs with
  | nil => simp [cumprod1]
  | cons x xs ih =>
    have hx := h x (by simp)
    subst hx
    intro y hy
    simp only [cumprod1, mul_one, List.mem_cons] at hy
    rcases hy with rfl | hy
    · rfl
    · exact ih (fun z hz => h z (by simp [hz])) y hy

end MemLemmas

section GetDLemmas

lemma shift1_getD (xs : List ℚ) (t : ℕ) (ht : t < xs.length) :
    (shift1 xs).getD t 0 = if t = 0 then 0 else xs.getD (t - 1) 0 := by
  cases xs with
  | nil => simp at ht
  | cons x xs =>
    cases t with
    | zero => rfl
    | succ k =>
      simp only [shift1, List.getD_cons_succ, Nat.succ_ne_zero, if_false, Nat.succ_sub_one]
      have hk : k < ((x :: xs).dropLast).length := by
        simp only [List.length_dropLast, List.length_cons, Nat.add_sub_cancel]
        exact Nat.lt_of_succ_lt_succ ht
      have hk2 : k < (x :: xs).length := Nat.lt_of_lt_of_le hk (by
        simp [List.length_dropLast])
      rw [List.getD_eq_getElem _ _ hk, List.getD_eq_getElem _ _ hk2,
        List.getElem_dropLast]

end GetDLemmas

section Fixtures

/-- A small concrete cost model used by witnesses. -/
def cost_w : CostModel := ⟨1, 2⟩

/-- A small concrete two-bar frame with defined simple returns. -/
def df_w : DF := ⟨[⟨0, none, some 0⟩, ⟨1/252, none, some (1/100)⟩], false, true⟩

/-- A concrete position series covering only the first bar. -/
def pos_w : PosSeries := [(0, some 1)]

/-- The backtest result on the fixture inputs (the exact record
`run_backtest` assembles, so the success equation holds by `rfl`). -/
def res_w : BacktestResult :=
  { equity := df_w.index.zip (equity_of df_w pos_w cost_w 2)
    returns := df_w.index.zip (net_of df_w pos_w cost_w)
    position := df_w.index.zip (pos_of df_w pos_w)
    turnover := df_w.index.zip (turnover_of df_w pos_w)
    costs := df_w.index.zip (costs_of df_w pos_w cost_w) }

/-- An all-zero position series on the fixture frame. -/
def pos_w0 : PosSeries := [(0, some 0)]

/-- Backtest result for the all-zero position fixture. -/
def res_w0 : BacktestResult :=
  { equity := df_w.index.zip (equity_of df_w pos_w0 cost_w 5)
    returns := df_w.index.zip (net_of df_w pos_w0 cost_w)
    position := df_w.index.zip (pos_of df_w pos_w0)
    turnover := df_w.index.zip (turnover_of df_w pos_w0)
    costs := df_w.index.zip (costs_of df_w pos_w0 cost_w) }

/-- A frame whose `RetSimple` column is present but entirely NaN. -/
def df_nr : DF := ⟨[⟨0, none, none⟩], true, true⟩

end Fixtures

/-- C1: `run_backtest` applies a one-bar execution lag: the realized PnL
(`pnl`, equal to net returns plus costs) at bar `t` is the realized
position at bar `t-1` times the simple return at `t`, and the position
before the first bar is treated as 0 (flat). -/
theorem run_backtest_lag (df : DF) (position : PosSeries) (cost : CostModel) (se : ℚ)
    (res : BacktestResult) (t : ℕ)
    (hok : run_backtest df position cost se = .ok res) (ht : t < df.rows.length) :
    (pnl_of df position).getD t none =
      omul (some (if t = 0 then 0 else (res.position.map (·.2)).getD (t - 1) 0))
        ((ret_col df).getD t none) ∧
    (res.returns.map (·.2)).getD t none =
      osub ((pnl_of df position).getD t none) (some ((res.costs.map (·.2)).getD t 0)) := by
  obtain ⟨hr, hna, rfl⟩ := (run_backtest_ok_iff df position cost se res).1 hok
  have hposmap : (df.index.zip (pos_of df position)).map (·.2) = pos_of df position := by
    apply List.map_snd_zip
    simp
  have hnetmap : (df.index.zip (net_of df position cost)).map (·.2) =
      net_of df position cost := by
    apply List.map_snd_zip
    simp
  have hcostmap : (df.index.zip (costs_of df position cost)).map (·.2) =
      costs_of df position cost := by
    apply List.map_snd_zip
    simp
  constructor
  · rw [hposmap]
    have hz : t < (List.zipWith (fun p r => omul (some p) r)
        (pos_shift_of df position) (ret_col df)).length := by
      simp [ht]
    rw [pnl_of, List.getD_eq_getElem _ _ hz, List.getElem_zipWith]
    have hsh : (pos_shift_of df position).getD t 0 =
        if t = 0 then 0 else (pos_of df position).getD (t - 1) 0 := by
      rw [pos_shift_of, shift1_getD _ _ (by simp [ht])]
    rw [List.getD_eq_getElem _ _ (by simp [ht] : t < (pos_shift_of df position).length)] at hsh
    rw [hsh, List.getD_eq_getElem _ _ (by simp [ht] : t < (ret_col df).length)]
  · rw [hnetmap, hcostmap]
    have hz : t < (net_of df position cost).length := by simp [ht]
    rw [net_of, List.getD_eq_getElem _ _ (by simpa [net_of] using hz), List.getElem_zipWith,
      List.getD_eq_getElem _ _ (by simp [ht] : t < (pnl_of df position).length),
      List.getD_eq_getElem _ _ (by simp [ht] : t < (costs_of df position cost).length)]

/-- Witness for C1 at the fixture inputs, at bar `t = 1`. -/
theorem run_backtest_lag_witness :
    ((pnl_of df_w pos_w).getD 1 none =
      omul (some ((res_w.position.map (·.2)).getD 0 0)) ((ret_col df_w).getD 1 none)) ∧
    (res_w.returns.map (·.2)).getD 1 none =
      osub ((pnl_of df_w pos_w).getD 1 none) (some ((res_w.costs.map (·.2)).getD 1 0)) := by
  have h := run_backtest_lag df_w pos_w cost_w 2 res_w 1 rfl (by decide)
  simpa using h

section FlatLemmas

lemma pos_of_zero (df : DF) (position : PosSeries)
    (hpos : ∀ p ∈ position, p.2 = some 0) :
    ∀ x ∈ pos_of df position, x = 0 := by
  intro x hx
  simp only [pos_of, List.mem_map] at hx
  obtain ⟨r, _, rfl⟩ := hx
  exact lookupVal_zero position r.ts hpos

lemma pos_shift_of_zero (df : DF) (position : PosSeries)
    (hpos : ∀ p ∈ position, p.2 = some 0) :
    ∀ x ∈ pos_shift_of df position, x = 0 := by
  intro x hx
  rcases mem_shift1 hx with h | h
  · exact h
  · exact pos_of_zero df position hpos x h

lemma costs_of_zero (df : DF) (position : PosSeries) (cost : CostModel)
    (hpos : ∀ p ∈ position, p.2 = some 0) :
    ∀ c ∈ costs_of df position cost, c = 0 := by
  intro c hc
  simp only [costs_of, List.mem_map] at hc
  obtain ⟨tv, htv, rfl⟩ := hc
  obtain ⟨a, ha, b, hb, rfl⟩ := exists_of_mem_zipWith htv
  rw [pos_of_zero df position hpos a ha, pos_shift_of_zero df position hpos b hb]
  simp

lemma net_of_zero (df : DF) (position : PosSeries) (cost : CostModel)
    (hpos : ∀ p ∈ position, p.2 = some 0)
    (hret : ∀ r ∈ df.rows, r.ret.isSome) :
    ∀ v ∈ net_of df position cost, v = some 0 := by
  intro v hv
  obtain ⟨pn, hpn, c, hc, rfl⟩ := exists_of_mem_zipWith hv
  obtain ⟨p, hp, r, hr, rfl⟩ := exists_of_mem_zipWith hpn
  have hp0 := pos_shift_of_zero df position hpos p hp
  have hrs : r.isSome := by
    simp only [ret_col, List.mem_map] at hr
    obtain ⟨row, hrow, rfl⟩ := hr
    exact hret row hrow
  obtain ⟨x, rfl⟩ := Option.isSome_iff_exists.1 hrs
  have hc0 := costs_of_zero df position cost hpos c hc
  subst hp0 hc0
  simp [omul, osub]

end FlatLemmas

/-- C2: with an everywhere-zero position series (and a fully defined simple
return column, as the spec's data model guarantees), `run_backtest` yields
net returns identically 0 and an equity curve constant at
`starting_equity`. -/
theorem run_backtest_flat_zero (df : DF) (position : PosSeries) (cost : CostModel)
    (se : ℚ) (res : BacktestResult)
    (hok : run_backtest df position cost se = .ok res)
    (hpos : ∀ p ∈ position, p.2 = some 0)
    (hret : ∀ r ∈ df.rows, r.ret.isSome) :
    (∀ v ∈ res.returns, v.2 = some 0) ∧ (∀ v ∈ res.equity, v.2 = some se) := by
  obtain ⟨hr, hna, rfl⟩ := (run_backtest_ok_iff df position cost se res).1 hok
  constructor
  · rintro ⟨a, b⟩ hv
    exact net_of_zero df position cost hpos hret b (List.of_mem_zip hv).2
  · rintro ⟨a, b⟩ hv
    have hb : b ∈ equity_of df position cost se := (List.of_mem_zip hv).2
    simp only [equity_of, List.mem_map] at hb
    obtain ⟨o, ho, rfl⟩ := hb
    have hone : ∀ x ∈ (net_of df position cost).map (fun o => o.map (fun x => 1 + x)),
        x = some 1 := by
      intro x hx
      simp only [List.mem_map] at hx
      obtain ⟨u, hu, rfl⟩ := hx
      rw [net_of_zero df position cost hpos hret u hu]
      norm_num
    have := cumprod1_one hone o ho
    subst this
    simp

/-- Witness for C2 at the fixture inputs (`starting_equity = 5`). -/
theorem run_backtest_flat_zero_witness :
    (res_w0.returns.get ⟨1, by decide⟩).2 = some 0 ∧
    (res_w0.equity.get ⟨1, by decide⟩).2 = some 5 := by
  obtain ⟨h1, h2⟩ :=
    run_backtest_flat_zero df_w pos_w0 cost_w 5 res_w0 rfl (by decide) (by decide)
  exact ⟨h1 _ (List.get_mem _ _ _), h2 _ (List.get_mem _ _ _)⟩

/-- C7: `run_backtest` fails with `MissingDataError` exactly when the
simple-return column is absent or entirely undefined; otherwise it returns
a `BacktestResult` without raising.  (The duplicate-free position index
hypothesis marks the domain on which the label lookup models pandas
`reindex`, which raises on duplicate labels.) -/
theorem run_backtest_missing_data (df : DF) (position : PosSeries) (cost : CostModel)
    (se : ℚ) (hposnd : (position.map (·.1)).Nodup) :
    (run_backtest df position cost se = .error .missingData ↔
      df.hasRet = false ∨ ∀ r ∈ df.rows, r.ret = none) ∧
    (¬ (df.hasRet = false ∨ ∀ r ∈ df.rows, r.ret = none) →
      ∃ res, run_backtest df position cost se = .ok res) := by
  have hcond : (!df.hasRet || (ret_col df).all (·.isNone)) = true ↔
      (df.hasRet = false ∨ ∀ r ∈ df.rows, r.ret = none) := by
    simp [List.all_eq_true, ret_col, Option.isNone_iff_eq_none]
  unfold run_backtest
  by_cases h : (!df.hasRet || (ret_col df).all (·.isNone)) = true
  · rw [if_pos h]
    refine ⟨⟨fun _ => hcond.1 h, fun _ => rfl⟩, fun hn => absurd (hcond.1 h) hn⟩
  · rw [if_neg h]
    refine ⟨⟨fun he => (by cases he), fun hp => absurd (hcond.2 hp) h⟩, fun _ => ⟨_, rfl⟩⟩

/-- Witness for C7: a frame whose return column is entirely NaN fails with
`MissingDataError`. -/
theorem run_backtest_missing_data_witness :
    run_backtest df_nr pos_w cost_w 1 = .error .missingData :=
  (run_backtest_missing_data df_nr pos_w cost_w 1 (by decide)).1.mpr
    (Or.inr (by decide))

/-- C10: on success, all five result series are indexed by exactly the
input frame's timestamps, in order, regardless of the index of the
supplied position series. -/
theorem run_backtest_aligned (df : DF) (position : PosSeries) (cost : CostModel)
    (se : ℚ) (res : BacktestResult)
    (hok : run_backtest df position cost se = .ok res) :
    res.equity.map (·.1) = df.index ∧ res.returns.map (·.1) = df.index ∧
    res.position.map (·.1) = df.index ∧ res.turnover.map (·.1) = df.index ∧
    res.costs.map (·.1) = df.index := by
  obtain ⟨hr, hna, rfl⟩ := (run_backtest_ok_iff df position cost se res).1 hok
  refine ⟨?_, ?_, ?_, ?_, ?_⟩ <;> (apply List.map_fst_zip; simp)

/-- Witness for C10 at the fixture inputs (the position series index
deliberately does not match the frame's index). -/
theorem run_backtest_aligned_witness :
    res_w.equity.map (·.1) = df_w.index ∧ res_w.returns.map (·.1) = df_w.index ∧
    res_w.position.map (·.1) = df_w.index ∧ res_w.turnover.map (·.1) = df_w.index ∧
    res_w.costs.map (·.1) = df_w.index :=
  run_backtest_aligned df_w pos_w cost_w 2 res_w rfl

section CostMonotone

lemma ret_col_getD_isSome (df : DF) (t : ℕ) (ht : t < df.rows.length)
    (hret : ∀ r ∈ df.rows, r.ret.isSome) :
    ∃ x, (ret_col df).getD t none = some x := by
  have hlt : t < (ret_col df).length := by simp [ht]
  rw [List.getD_eq_getElem _ _ hlt]
  have hgt : (ret_col df)[t] = (df.rows[t]).ret := by
    simp [ret_col]
  rw [hgt]
  exact Option.isSome_iff_exists.1 (hret _ (List.getElem_mem ht))

lemma net_of_getD (df : DF) (position : PosSeries) (cost : CostModel) (t : ℕ)
    (ht : t < df.rows.length) :
    (net_of df position cost).getD t none =
      osub ((pnl_of df position).getD t none) (some ((costs_of df position cost).getD t 0)) := by
  have hz : t < (net_of df position cost).length := by simp [ht]
  rw [net_of, List.getD_eq_getElem _ _ (by simpa [net_of] using hz), List.getElem_zipWith,
    List.getD_eq_getElem _ _ (by simp [ht] : t < (pnl_of df position).length),
    List.getD_eq_getElem _ _ (by simp [ht] : t < (costs_of df position cost).length)]

lemma pnl_of_getD (df : DF) (position : PosSeries) (t : ℕ)
    (ht : t < df.rows.length) :
    (pnl_of df position).getD t none =
      omul (some ((pos_shift_of df position).getD t 0)) ((ret_col df).getD t none) := by
  have hz : t < (pnl_of df position).length := by simp [ht]
  rw [pnl_of, List.getD_eq_getElem _ _ (by simpa [pnl_of] using hz), List.getElem_zipWith,
    List.getD_eq_getElem _ _ (by simp [ht] : t < (pos_shift_of df position).length),
    List.getD_eq_getElem _ _ (by simp [ht] : t < (ret_col df).length)]

lemma costs_of_getD (df : DF) (position : PosSeries) (cost : CostModel) (t : ℕ)
    (ht : t < df.rows.length) :
    (costs_of df position cost).getD t 0 =
      (turnover_of df position).getD t 0 *
        ((cost.commission_bps + cost.slippage_bps) / 10000) := by
  have hz : t < (costs_of df position cost).length := by simp [ht]
  rw [costs_of, List.getD_eq_getElem _ _ (by simpa [costs_of] using hz), List.getElem_map,
    List.getD_eq_getElem _ _ (by simp [ht] : t < (turnover_of df position).length)]

lemma turnover_of_getD_nonneg (df : DF) (position : PosSeries) (t : ℕ) :
    (0 : ℚ) ≤ (turnover_of df position).getD t 0 := by
  by_cases h6 : t < (turnover_of df position).length
  · rw [List.getD_eq_getElem _ _ h6]
    obtain ⟨a, ha, b, hb, hab⟩ := exists_of_mem_zipWith (List.getElem_mem h6)
    rw [hab]
    exact abs_nonneg _
  · rw [List.getD_eq_default _ _ (Nat.le_of_not_lt h6)]

/-- Pointwise closed form of the net-return series when the return column
is fully defined. -/
lemma net_of_getD_eq (df : DF) (position : PosSeries) (cost : CostModel) (t : ℕ)
    (ht : t < df.rows.length) (hret : ∀ r ∈ df.rows, r.ret.isSome) :
    (net_of df position cost).getD t none =
      some ((pos_shift_of df position).getD t 0 * ((ret_col df).getD t none).getD 0
        - (turnover_of df position).getD t 0 *
            ((cost.commission_bps + cost.slippage_bps) / 10000)) := by
  obtain ⟨x, hx⟩ := ret_col_getD_isSome df t ht hret
  rw [net_of_getD df position cost t ht, pnl_of_getD df position t ht,
    costs_of_getD df position cost t ht, hx]
  simp [omul, osub]

/-- The net-return comparison underlying the monotone cost penalty. -/
lemma net_of_le (df : DF) (position : PosSeries) (c1 c2 : CostModel) (t : ℕ)
    (ht : t < df.rows.length) (hret : ∀ r ∈ df.rows, r.ret.isSome)
    (hcc : c1.commission_bps + c1.slippage_bps ≤ c2.commission_bps + c2.slippage_bps) :
    ∃ u1 u2, (net_of df position c1).getD t none = some u1 ∧
      (net_of df position c2).getD t none = some u2 ∧ u2 ≤ u1 := by
  rw [net_of_getD_eq df position c1 t ht hret, net_of_getD_eq df position c2 t ht hret]
  refine ⟨_, _, rfl, rfl, ?_⟩
  have htv := turnover_of_getD_nonneg df position t
  have hrate : (c1.commission_bps + c1.slippage_bps) / 10000 ≤
      (c2.commission_bps + c2.slippage_bps) / 10000 :=
    (div_le_div_iff_of_pos_right (by norm_num)).mpr hcc
  exact sub_le_sub_left (mul_le_mul_of_nonneg_left hrate htv) _

end CostMonotone

section CumprodMono

lemma getD_map_option (f : ℚ → ℚ) (xs : List (Option ℚ)) (t : ℕ) (ht : t < xs.length) :
    (xs.map (fun o => o.map f)).getD t none = (xs.getD t none).map f := by
  rw [List.getD_eq_getElem _ _ (by simpa using ht), List.getElem_map,
    List.getD_eq_getElem _ _ ht]

lemma cumprod1_le (xs : List (Option ℚ)) (ys : List (Option ℚ)) (acc1 acc2 : ℚ) (t : ℕ)
    (hacc2 : 0 ≤ acc2) (hacc : acc2 ≤ acc1)
    (h : ∀ i, i < xs.length → ∃ a b, xs.getD i none = some a ∧ ys.getD i none = some b ∧
      0 ≤ b ∧ b ≤ a)
    (ht : t < xs.length) :
    ∃ p q, (cumprod1 acc1 xs).getD t none = some p ∧
      (cumprod1 acc2 ys).getD t none = some q ∧ 0 ≤ q ∧ q ≤ p := by
  induction xs generalizing ys acc1 acc2 t with
  | nil => simp at ht
  | cons x xs ih =>
    obtain ⟨a, b, hx0, hy0, hb0, hba⟩ := h 0 (by simp)
    simp only [List.getD_cons_zero] at hx0
    subst hx0
    cases ys with
    | nil => simp at hy0
    | cons y ys =>
      simp only [List.getD_cons_zero] at hy0
      subst hy0
      have hacc1 : 0 ≤ acc1 := le_trans hacc2 hacc
      cases t with
      | zero =>
        refine ⟨acc1 * a, acc2 * b, by simp [cumprod1], by simp [cumprod1], ?_, ?_⟩
        · exact mul_nonneg hacc2 hb0
        · exact mul_le_mul hacc hba hb0 hacc1
      | succ k =>
        have hk : k < xs.length := Nat.lt_of_succ_lt_succ ht
        have hshift : ∀ i, i < xs.length → ∃ a2 b2, xs.getD i none = some a2 ∧
            ys.getD i none = some b2 ∧ 0 ≤ b2 ∧ b2 ≤ a2 := by
          intro i hi
          simpa using h (i + 1) (by simpa using Nat.succ_lt_succ hi)
        obtain ⟨p, q, hp, hq, hq0, hqp⟩ := ih ys (acc1 * a) (acc2 * b)
          k (mul_nonneg hacc2 hb0) (mul_le_mul hacc hba hb0 hacc1) hshift hk
        exact ⟨p, q, by simpa [cumprod1] using hp, by simpa [cumprod1] using hq, hq0, hqp⟩

end CumprodMono

/-- C3 (amended): with a fully-defined return column, raising the combined
commission-plus-slippage rate (both rates non-negative) never increases any
net return; and provided the costlier run's net returns never fall below
-100% (so the compounding factors `1 + net_ret` stay non-negative) and the
starting equity is non-negative, it never increases equity at any bar
either.  The unconditional equity comparison of the original claim is
false: with a combined rate above 100% per unit turnover the factors turn
negative and the products can flip order (see the counterexample). -/
theorem run_backtest_cost_monotone (df : DF) (position : PosSeries) (c1 c2 : CostModel)
    (se : ℚ) (r1 r2 : BacktestResult)
    (h1 : run_backtest df position c1 se = .ok r1)
    (h2 : run_backtest df position c2 se = .ok r2)
    (hret : ∀ r ∈ df.rows, r.ret.isSome)
    (hse : 0 ≤ se)
    (hc1 : 0 ≤ c1.commission_bps + c1.slippage_bps)
    (hcc : c1.commission_bps + c1.slippage_bps ≤ c2.commission_bps + c2.slippage_bps) :
    (∀ t, t < df.rows.length →
      ((r2.returns.map (·.2)).getD t none).getD 0 ≤
        ((r1.returns.map (·.2)).getD t none).getD 0) ∧
    ((∀ t, t < df.rows.length →
        (-1 : ℚ) ≤ ((r2.returns.map (·.2)).getD t none).getD 0) →
      ∀ t, t < df.rows.length →
        ((r2.equity.map (·.2)).getD t none).getD 0 ≤
          ((r1.equity.map (·.2)).getD t none).getD 0) := by
  obtain ⟨hr1, hna1, rfl⟩ := (run_backtest_ok_iff df position c1 se r1).1 h1
  obtain ⟨hr2, hna2, rfl⟩ := (run_backtest_ok_iff df position c2 se r2).1 h2
  have hmapn1 : (df.index.zip (net_of df position c1)).map (·.2) = net_of df position c1 :=
    List.map_snd_zip _ _ (by simp)
  have hmapn2 : (df.index.zip (net_of df position c2)).map (·.2) = net_of df position c2 :=
    List.map_snd_zip _ _ (by simp)
  have hmape1 : (df.index.zip (equity_of df position c1 se)).map (·.2) =
      equity_of df position c1 se := List.map_snd_zip _ _ (by simp)
  have hmape2 : (df.index.zip (equity_of df position c2 se)).map (·.2) =
      equity_of df position c2 se := List.map_snd_zip _ _ (by simp)
  simp only [hmapn1, hmapn2, hmape1, hmape2]
  constructor
  · intro t ht
    obtain ⟨u1, u2, hu1, hu2, hle⟩ := net_of_le df position c1 c2 t ht hret hcc
    rw [hu1, hu2]
    simpa using hle
  · intro hfac t ht
    have hcond : ∀ i,
        i < ((net_of df position c1).map (fun o => o.map (fun x => 1 + x))).length →
        ∃ a b,
          ((net_of df position c1).map (fun o => o.map (fun x => 1 + x))).getD i none =
            some a ∧
          ((net_of df position c2).map (fun o => o.map (fun x => 1 + x))).getD i none =
            some b ∧ 0 ≤ b ∧ b ≤ a := by
      intro i hi
      have hi2 : i < df.rows.length := by simpa using hi
      obtain ⟨u1, u2, hu1, hu2, hle⟩ := net_of_le df position c1 c2 i hi2 hret hcc
      have hf := hfac i hi2
      rw [hu2] at hf
      simp only [Option.getD_some] at hf
      refine ⟨1 + u1, 1 + u2, ?_, ?_, by linarith, by linarith⟩
      · rw [getD_map_option _ _ _ (by simp [hi2]), hu1]
        rfl
      · rw [getD_map_option _ _ _ (by simp [hi2]), hu2]
        rfl
    obtain ⟨p, q, hp, hq, hq0, hqp⟩ :=
      cumprod1_le ((net_of df position c1).map (fun o => o.map (fun x => 1 + x)))
        ((net_of df position c2).map (fun o => o.map (fun x => 1 + x)))
        1 1 t (by norm_num) (le_refl 1) hcond (by simpa using ht)
    rw [equity_of, equity_of,
      getD_map_option _ _ _ (by simp [ht] :
        t < (cumprod1 1 ((net_of df position c2).map
          (fun o => o.map (fun x => 1 + x)))).length),
      getD_map_option _ _ _ (by simp [ht] :
        t < (cumprod1 1 ((net_of df position c1).map
          (fun o => o.map (fun x => 1 + x)))).length),
      hp, hq]
    simpa using mul_le_mul_of_nonneg_right hqp hse

/-- Concrete frame for the C3 counterexample. -/
def df_c3 : DF := ⟨[⟨0, none, some 0⟩, ⟨1/252, none, some 0⟩], false, true⟩

/-- Position series that flips from long to short, generating turnover 2. -/
def pos_c3 : PosSeries := [(0, some 1), (1/252, some (-1))]

/-- Zero-cost model. -/
def cost_lo : CostModel := ⟨0, 0⟩

/-- Cost model with a 200% per-unit-turnover rate (20000 bps). -/
def cost_hi : CostModel := ⟨20000, 0⟩

/-- Counterexample to C3 as stated: with non-negative cost models whose
combined rate rises from 0 bps to 20000 bps (200% per unit turnover), the
equity at the second bar JUMPS from 1 to 3 — the compounding factors turn
negative and multiply back to a larger equity, so "equity at every
timestamp is less than or equal" fails. -/
theorem run_backtest_cost_monotone_counterexample :
    (cost_lo.commission_bps + cost_lo.slippage_bps ≤
        cost_hi.commission_bps + cost_hi.slippage_bps ∧
      0 ≤ cost_lo.commission_bps ∧ 0 ≤ cost_lo.slippage_bps ∧
      0 ≤ cost_hi.commission_bps ∧ 0 ≤ cost_hi.slippage_bps) ∧
    Except.map (fun r => (r.equity.map (·.2)).getD 1 none)
      (run_backtest df_c3 pos_c3 cost_hi 1) = .ok (some 3) ∧
    Except.map (fun r => (r.equity.map (·.2)).getD 1 none)
      (run_backtest df_c3 pos_c3 cost_lo 1) = .ok (some 1) ∧
    ¬ ((3 : ℚ) ≤ 1) := by
  exact ⟨by norm_num [cost_lo, cost_hi], by with_unfolding_all rfl,
    by with_unfolding_all rfl, by norm_num⟩

/-- Result of the fixture backtest under the zero-cost model. -/
def res_wlo : BacktestResult :=
  { equity := df_w.index.zip (equity_of df_w pos_w cost_lo 2)
    returns := df_w.index.zip (net_of df_w pos_w cost_lo)
    position := df_w.index.zip (pos_of df_w pos_w)
    turnover := df_w.index.zip (turnover_of df_w pos_w)
    costs := df_w.index.zip (costs_of df_w pos_w cost_lo) }

/-- Witness for the amended C3 at the fixture inputs. -/
theorem run_backtest_cost_monotone_witness :
    ((res_w.returns.map (·.2)).getD 1 none).getD 0 ≤
      ((res_wlo.returns.map (·.2)).getD 1 none).getD 0 ∧
    ((res_w.equity.map (·.2)).getD 1 none).getD 0 ≤
      ((res_wlo.equity.map (·.2)).getD 1 none).getD 0 := by
  have h := run_backtest_cost_monotone df_w pos_w cost_lo cost_w 2 res_wlo res_w
    rfl rfl (by decide) (by norm_num) (by norm_num [cost_lo]) (by norm_num [cost_lo, cost_w])
  refine ⟨h.1 1 (by decide), h.2 ?_ 1 (by decide)⟩
  intro t ht
  simp only [df_w, List.length_cons, List.length_nil] at ht
  interval_cases t <;> with_unfolding_all decide

/-- Python `int()` on a rational: truncation toward zero. -/
def pyInt (q : ℚ) : ℤ := if q < 0 then -(Int.floor (-q)) else Int.floor q

/-- `params.get(key)` on the parameter mapping. -/
def plookup (params : List (String × ℚ)) (k : String) : Option ℚ :=
  (params.find? (fun p => p.1 = k)).map (·.2)

/-- NaN-propagating division.  pandas yields ±inf for `x/0` with `x ≠ 0`
and NaN for `0/0`; here `a / 0 = 0` is the rational junk value.  No claim
below depends on the value (or definedness) of a division by zero: the
claims proved about `ma_cross` are membership and warm-up facts that hold
under either convention. -/
def odiv : Option ℚ → Option ℚ → Option ℚ
  | some a, some b => some (a / b)
  | _, _ => none

/-- `close.rolling(w, min_periods=w).mean()`: defined exactly on bars whose
full `w`-window is present and NaN-free (with `min_periods = w` the window
count of non-NaN values reaches `w` only in that case). -/
def rollingMean (w : ℕ) (xs : List (Option ℚ)) : List (Option ℚ) :=
  (List.range xs.length).map (fun i =>
    if i + 1 < w then none
    else
      let win := (xs.take (i + 1)).drop (i + 1 - w)
      if win.all (·.isSome) then some ((win.filterMap id).sum / (w : ℚ)) else none)

/-- `.ffill()`: carry the last defined value forward (`acc` is the value
carried into the head, `none` at the start). -/
def ffill (acc : Option ℚ) : List (Option ℚ) → List (Option ℚ)
  | [] => []
  | none :: xs => acc :: ffill acc xs
  | some v :: xs => some v :: ffill (some v) xs

/-- `spread = (ma_f - ma_s) / ma_s` over the two rolling means. -/
def spread_of (fastN slowN : ℕ) (close : List (Option ℚ)) : List (Option ℚ) :=
  List.zipWith (fun f s => odiv (osub f s) s)
    (rollingMean fastN close) (rollingMean slowN close)

/-- `buy = spread > nz_bps / 1e4` (NaN compares false). -/
def buy_of (nz : ℚ) (spread : List (Option ℚ)) : List Bool :=
  spread.map (fun s => match s with
    | some v => decide (nz / 10000 < v)
    | none => false)

/-- `sell = spread < -(nz_bps / 1e4)` (NaN compares false). -/
def sell_of (nz : ℚ) (spread : List (Option ℚ)) : List Bool :=
  spread.map (fun s => match s with
    | some v => decide (v < -(nz / 10000))
    | none => false)

/-- The position pipeline of `ma_cross`: zero series, the verbatim
`pos.where(spread.isna(), pos)` no-op, the buy/sell masks,
`replace(0, NA).ffill().fillna(0.0)` and the final `clip(-1, 1)`. -/
def pos_chain (fastN slowN : ℕ) (nz : ℚ) (close : List (Option ℚ)) : List ℚ :=
  let spread := spread_of fastN slowN close
  let pos0 : List ℚ := close.map (fun _ => 0)
  let posW := List.zipWith (fun s p => if s.isNone then p else p) spread pos0
  let pos1 := List.zipWith (fun b p => if b then (1 : ℚ) else p) (buy_of nz spread) posW
  let pos2 := List.zipWith (fun b p => if b then (-1 : ℚ) else p) (sell_of nz spread) pos1
  let pos3 := pos2.map (fun x => if x = 0 then (none : Option ℚ) else some x)
  let pos4 := ffill none pos3
  let pos5 := pos4.map (fun o => o.getD 0)
  pos5.map (fun x => max (-1) (min x 1))

/-- `ma_cross` from `strategy_template.py`.  The `KeyError` branch models
`df["Close"]` on a frame without that column; the `ValueError` branch
models pandas rejecting a non-positive rolling window. -/
def ma_cross (df : DF) (params : List (String × ℚ)) : Except Err (List (ℚ × ℚ)) :=
  let fast := pyInt ((plookup params "fast").getD 20)
  let slow := pyInt ((plookup params "slow").getD 100)
  let nz := (plookup params "neutral_zone").getD 0
  if !df.hasClose then .error .keyError
  else if fast < 1 ∨ slow < 1 then .error .valueError
  else .ok (df.index.zip (pos_chain fast.toNat slow.toNat nz (close_col df)))

section MaCrossLemmas

@[simp] lemma rollingMean_length (w : ℕ) (xs : List (Option ℚ)) :
    (rollingMean w xs).length = xs.length := by
  simp [rollingMean]

@[simp] lemma close_col_length (df : DF) : (close_col df).length = df.rows.length := by
  simp [close_col]

@[simp] lemma ffill_length (acc : Option ℚ) (xs : List (Option ℚ)) :
    (ffill acc xs).length = xs.length := by
  induction xs generalizing acc with
  | nil => rfl
  | cons x xs ih => cases x <;> simp [ffill, ih]

lemma ffill_mem {xs : List (Option ℚ)} {acc y : Option ℚ} (hy : y ∈ ffill acc xs) :
    y = acc ∨ ∃ v, y = some v ∧ some v ∈ xs := by
  induction xs generalizing acc with
  | nil => simp [ffill] at hy
  | cons x xs ih =>
    cases x with
    | none =>
      simp only [ffill, List.mem_cons] at hy
      rcases hy with rfl | hy
      · exact Or.inl rfl
      · rcases ih hy with h | ⟨v, rfl, hv⟩
        · exact Or.inl h
        · exact Or.inr ⟨v, rfl, by simp [hv]⟩
    | some w =>
      simp only [ffill, List.mem_cons] at hy
      rcases hy with rfl | hy
      · exact Or.inr ⟨w, rfl, by simp⟩
      · rcases ih hy with h | ⟨v, rfl, hv⟩
        · exact Or.inr ⟨w, h, by simp⟩
        · exact Or.inr ⟨v, rfl, by simp [hv]⟩

lemma ffill_getD_none (xs : List (Option ℚ)) (t : ℕ) (ht : t < xs.length)
    (h : ∀ i, i ≤ t → xs.getD i (some 0) = none) :
    (ffill none xs).getD t none = none := by
  induction xs generalizing t with
  | nil => simp at ht
  | cons x xs ih =>
    have hx : x = none := by simpa using h 0 (Nat.zero_le t)
    subst hx
    cases t with
    | zero => rfl
    | succ k =>
      have hk : k < xs.length := Nat.lt_of_succ_lt_succ ht
      simpa [ffill] using ih k hk (fun i hi => by
        simpa using h (i + 1) (Nat.succ_le_succ hi))

end MaCrossLemmas

section MaCrossPointwise

@[simp] lemma osub_none_right (x : Option ℚ) : osub x none = none := by
  cases x <;> rfl

@[simp] lemma odiv_none_right (x : Option ℚ) : odiv x none = none := by
  cases x <;> rfl

@[simp] lemma spread_of_length (fastN slowN : ℕ) (close : List (Option ℚ)) :
    (spread_of fastN slowN close).length = close.length := by
  simp [spread_of]

@[simp] lemma buy_of_length (nz : ℚ) (spread : List (Option ℚ)) :
    (buy_of nz spread).length = spread.length := by
  simp [buy_of]

@[simp] lemma sell_of_length (nz : ℚ) (spread : List (Option ℚ)) :
    (sell_of nz spread).length = spread.length := by
  simp [sell_of]

@[simp] lemma pos_chain_length (fastN slowN : ℕ) (nz : ℚ) (close : List (Option ℚ)) :
    (pos_chain fastN slowN nz close).length = close.length := by
  simp [pos_chain]

lemma pos_chain_mem (fastN slowN : ℕ) (nz : ℚ) (close : List (Option ℚ)) :
    ∀ x ∈ pos_chain fastN slowN nz close, x = -1 ∨ x = 0 ∨ x = 1 := by
  intro x hx
  simp only [pos_chain] at hx
  rw [List.mem_map] at hx
  obtain ⟨y, hy, rfl⟩ := hx
  rw [List.mem_map] at hy
  obtain ⟨o, ho, rfl⟩ := hy
  have hval : o.getD 0 = -1 ∨ o.getD 0 = 0 ∨ o.getD 0 = 1 := by
    rcases ffill_mem ho with rfl | ⟨v, rfl, hv⟩
    · simp
    · rw [List.mem_map] at hv
      obtain ⟨z, hz, hzeq⟩ := hv
      by_cases h0 : z = 0
      · rw [if_pos h0] at hzeq
        cases hzeq
      · rw [if_neg h0] at hzeq
        injection hzeq with hzv
        subst hzv
        obtain ⟨b, hb, p, hp, hform⟩ := exists_of_mem_zipWith hz
        cases b with
        | true => simp only [if_true] at hform; simp [hform]
        | false =>
          simp only [Bool.false_eq_true, if_false] at hform
          subst hform
          obtain ⟨b2, hb2, q, hq, hform2⟩ := exists_of_mem_zipWith hp
          cases b2 with
          | true => simp only [if_true] at hform2; simp [hform2]
          | false =>
            simp only [Bool.false_eq_true, if_false] at hform2
            subst hform2
            obtain ⟨s, hs, r, hr, hform3⟩ := exists_of_mem_zipWith hq
            rw [ite_self] at hform3
            subst hform3
            rw [List.mem_map] at hr
            obtain ⟨c, hc, hr0⟩ := hr
            exact absurd hr0.symm h0
  rcases hval with h | h | h <;> rw [h] <;> norm_num

lemma rollingMean_getElem_none (w : ℕ) (xs : List (Option ℚ)) (i : ℕ)
    (hi : i < (rollingMean w xs).length) (hw : i + 1 < w) :
    (rollingMean w xs)[i] = none := by
  simp only [rollingMean, List.getElem_map, List.getElem_range]
  rw [if_pos hw]

lemma spread_of_getElem_none (fastN slowN : ℕ) (close : List (Option ℚ)) (i : ℕ)
    (hi : i < (spread_of fastN slowN close).length) (hw : i + 1 < slowN) :
    (spread_of fastN slowN close)[i] = none := by
  simp only [spread_of, List.getElem_zipWith]
  rw [rollingMean_getElem_none slowN close i (by simpa using (by simpa using hi :
    i < close.length)) hw]
  simp

end MaCrossPointwise

lemma pos_chain_warmup (fastN slowN : ℕ) (nz : ℚ) (close : List (Option ℚ)) (t : ℕ)
    (ht : t < close.length) (hw : t + 1 < slowN) :
    (pos_chain fastN slowN nz close).getD t 9 = 0 := by
  simp only [pos_chain]
  set spread := spread_of fastN slowN close with hsp
  set pos0 : List ℚ := close.map (fun _ => 0) with hp0
  set posW := List.zipWith (fun s p => if s.isNone then p else p) spread pos0 with hpw
  set pos1 := List.zipWith (fun b p => if b then (1 : ℚ) else p) (buy_of nz spread) posW
    with hp1
  set pos2 := List.zipWith (fun b p => if b then (-1 : ℚ) else p) (sell_of nz spread) pos1
    with hp2
  set pos3 := pos2.map (fun x => if x = 0 then (none : Option ℚ) else some x) with hp3
  have hlen2 : pos2.length = close.length := by
    simp [hp2, hp1, hpw, hp0, hsp]
  have hlen3 : pos3.length = close.length := by
    simp [hp3, hlen2]
  have hpos3none : ∀ i, i ≤ t → pos3.getD i (some 0) = none := by
    intro i hit
    have hic : i < close.length := lt_of_le_of_lt hit ht
    have hi3 : i < pos3.length := by rw [hlen3]; exact hic
    have hi2 : i < pos2.length := by rw [hlen2]; exact hic
    have hisp : i < spread.length := by
      simpa [hsp] using hic
    have hspr : spread[i] = none :=
      spread_of_getElem_none fastN slowN close i (by simpa using hic) (by omega)
    have hpos2 : pos2[i] = 0 := by
      simp only [hp2, hp1, hpw, List.getElem_zipWith, sell_of, buy_of,
        List.getElem_map, hspr]
      simp [hp0, List.getElem_map]
    rw [List.getD_eq_getElem _ _ hi3]
    simp only [hp3, List.getElem_map, hpos2]
    simp
  have hff : (ffill none pos3).getD t none = none :=
    ffill_getD_none pos3 t (by rw [hlen3]; exact ht) hpos3none
  have htf : t < (ffill none pos3).length := by simpa [hlen3] using ht
  have hffe : (ffill none pos3)[t] = none := by
    rw [← List.getD_eq_getElem _ none]
    exact hff
  rw [List.getD_eq_getElem _ _ (by simp [hlen3, ht] :
    t < (((ffill none pos3).map (fun o => o.getD 0)).map
      (fun x => max (-1) (min x 1))).length)]
  simp only [List.getElem_map, hffe]
  norm_num

/-- C9: for every frame with a `Close` column and every parameter mapping
(whose derived window sizes are positive, as pandas `rolling` requires),
the `ma_cross` position series has no undefined values: every value is
exactly -1, 0 or 1, and every bar strictly before the slow window first
completes carries 0. -/
theorem ma_cross_range (df : DF) (params : List (String × ℚ))
    (hc : df.hasClose = true)
    (hf : 1 ≤ pyInt ((plookup params "fast").getD 20))
    (hs : 1 ≤ pyInt ((plookup params "slow").getD 100)) :
    ∃ pos, ma_cross df params = .ok pos ∧
      pos.length = df.rows.length ∧
      (∀ p ∈ pos, p.2 = -1 ∨ p.2 = 0 ∨ p.2 = 1) ∧
      (∀ t, t + 1 < (pyInt ((plookup params "slow").getD 100)).toNat →
        t < df.rows.length → (pos.map (·.2)).getD t 9 = 0) := by
  refine ⟨df.index.zip (pos_chain (pyInt ((plookup params "fast").getD 20)).toNat
    (pyInt ((plookup params "slow").getD 100)).toNat
    ((plookup params "neutral_zone").getD 0) (close_col df)), ?_, ?_, ?_, ?_⟩
  · simp only [ma_cross, hc, Bool.not_true]
    rw [if_neg (by simp)]
    rw [if_neg (by push_neg; exact ⟨hf, hs⟩)]
  · simp
  · rintro ⟨a, b⟩ hp
    exact pos_chain_mem _ _ _ _ b (List.of_mem_zip hp).2
  · intro t hwt hlt
    rw [List.map_snd_zip _ _ (by simp)]
    exact pos_chain_warmup _ _ _ _ t (by simpa using hlt) hwt

/-- A small concrete frame with a `Close` column for the C9 witness. -/
def df_c9 : DF := ⟨[⟨0, some 1, some 0⟩, ⟨1/252, some 2, some (1/100)⟩], true, true⟩

/-- Witness for C9: with the default parameters the first bar (inside the
100-bar warm-up) carries position 0. -/
theorem ma_cross_range_witness :
    Except.map (fun pos => (pos.map (·.2)).getD 0 9) (ma_cross df_c9 []) = .ok 0 := by
  obtain ⟨pos, hok, hlen, hmem, hwarm⟩ := ma_cross_range df_c9 [] rfl
    (by with_unfolding_all decide) (by with_unfolding_all decide)
  rw [hok]
  simp only [Except.map]
  rw [hwarm 0 (by with_unfolding_all decide) (by decide)]

/-- The performance record of `metrics.py`.  Only the CAGR statistic (and
the empty-equity check) is embedded: the Validation Layer reads exactly
`perf_d["CAGR"]` for selection and reporting, and no claim refers to the
other statistics. -/
structure Perf where
  cagr : ℝ

/-- `compute_performance` from `metrics.py`: drops NaN equity points
(keeping their timestamps), raises `EmptySeriesError` on an empty curve,
and computes `CAGR = (eq_last/eq_first)^(1/years) - 1` with
`years = max(elapsed, 1e-9)` (timestamps are in year units here; float
`**` is real exponentiation). -/
noncomputable def compute_performance (equity : List (ℚ × Option ℚ))
    (returns : List (ℚ × Option ℚ)) : Except Err Perf :=
  let eqd := equity.filterMap (fun p => (p.2).map (fun x => (p.1, x)))
  match eqd with
  | [] => .error .emptySeries
  | e0 :: _ =>
    let eL := eqd.getLast?.getD e0
    let total : ℚ := eL.2 / e0.2 - 1
    let years : ℚ := max (eL.1 - e0.1) (1 / 1000000000)
    .ok ⟨(1 + (total : ℝ)) ^ ((1 : ℝ) / (years : ℝ)) - 1⟩

/-- A parameter mapping (`Dict[str, Any]` with numeric values). -/
abbrev Params := List (String × ℚ)

/-- The strategy plug-in contract, `(df, params) -> position series`;
`Except` models a raising strategy (e.g. `ma_cross` on a missing column). -/
abbrev StrategyFn := DF → Params → Except Err PosSeries

/-- One grid-search candidate evaluation: strategy, backtest, performance
(the loop body of `grid_search`). -/
noncomputable def evalCand (df : DF) (strat : StrategyFn) (cost : CostModel)
    (c : Params) : Except Err Perf := do
  let pos ← strat df c
  let res ← run_backtest df pos cost 1
  compute_performance res.equity res.returns

/-- `itertools.product(*grid.values())` zipped back with the keys, in
iteration order (first key outermost). -/
def gridProduct : List (String × List ℚ) → List Params
  | [] => [[]]
  | (k, vs) :: rest =>
    vs.flatMap (fun v => (gridProduct rest).map (fun ps => (k, v) :: ps))

section
open Classical

/-- The `grid_search` loop: evaluate candidates in order, keep the best by
strict `CAGR >` comparison (ties keep the earlier candidate); the failing
`assert best is not None` on an empty product is `EmptyGridError`. -/
noncomputable def gridSearchGo (df : DF) (strat : StrategyFn) (cost : CostModel) :
    List Params → Option (Params × Perf) → Except Err (Params × Perf)
  | [], none => .error .emptyGrid
  | [], some b => .ok b
  | c :: rest, best => do
    let perf ← evalCand df strat cost c
    gridSearchGo df strat cost rest
      (match best with
       | none => some (c, perf)
       | some b => if b.2.cagr < perf.cagr then some (c, perf) else some b)

/-- `grid_search` from `deep_test.py`. -/
noncomputable def grid_search (df : DF) (strat : StrategyFn)
    (grid : List (String × List ℚ)) (cost : CostModel) : Except Err (Params × Perf) :=
  gridSearchGo df strat cost (gridProduct grid) none

end

/-- `WalkForwardConfig` from `deep_test.py`. -/
structure WalkForwardConfig where
  train_years : ℤ
  test_years : ℤ
  step_years : ℤ

/-- The `while cur < end` loop of `_year_slices`, with explicit fuel.  For
`years ≥ 1` the fuel `⌈end - start⌉ + 1` bounds the iteration count, so
the function equals the Python loop; for `years ≤ 0` the Python loop never
terminates (outside the domain of every theorem below). -/
def yearSlicesGo (e : ℚ) (years : ℚ) : ℕ → ℚ → List (ℚ × ℚ)
  | 0, _ => []
  | fuel + 1, cur =>
    if cur < e then (cur, min (cur + years) e) :: yearSlicesGo e years fuel (cur + years)
    else []

/-- `_year_slices` from `deep_test.py` (empty index gives no slices, as the
NaT comparisons are all false in pandas). -/
def year_slices (idx : List ℚ) (years : ℚ) : List (ℚ × ℚ) :=
  match idx.min?, idx.max? with
  | some s, some e => yearSlicesGo e years ((⌈e - s⌉).toNat + 1) s
  | _, _ => []

/-- One row of the walk-forward output frame. -/
structure WFRow where
  train_start : ℚ
  train_end : ℚ
  test_end : ℚ
  params : Params
  perf : Perf

/-- `df.loc[(df.index >= lo) & (df.index < hi)]`. -/
def dfRestrict (df : DF) (lo hi : ℚ) : DF :=
  ⟨df.rows.filter (fun r => decide (lo ≤ r.ts) && decide (r.ts < hi)),
    df.hasClose, df.hasRet⟩

/-- The walk-forward loop over the year slices: `break` once the training
window reaches the data's end, `continue` (skip) on windows with fewer
than 50 training or 20 test bars, otherwise grid-search the training
window and score the winner out-of-sample. -/
noncomputable def walkForwardGo (df : DF) (strat : StrategyFn)
    (grid : List (String × List ℚ)) (cost : CostModel) (cfg : WalkForwardConfig)
    (mx : ℚ) : List (ℚ × ℚ) → Except Err (List WFRow)
  | [] => .ok []
  | (trainStart, _) :: rest =>
    let trainEnd := trainStart + (cfg.train_years : ℚ)
    let testEnd := trainEnd + (cfg.test_years : ℚ)
    if mx ≤ trainEnd ∨ mx ≤ trainStart then .ok []
    else
      let dfTrain := dfRestrict df trainStart trainEnd
      let dfTest := dfRestrict df trainEnd (min testEnd mx)
      if dfTrain.rows.length < 50 ∨ dfTest.rows.length < 20 then
        walkForwardGo df strat grid cost cfg mx rest
      else do
        let best ← grid_search dfTrain strat grid cost
        let pos ← strat dfTest best.1
        let res ← run_backtest dfTest pos cost 1
        let perf ← compute_performance res.equity res.returns
        let rows ← walkForwardGo df strat grid cost cfg mx rest
        .ok (⟨trainStart, trainEnd, min testEnd mx, best.1, perf⟩ :: rows)

/-- `walk_forward` from `deep_test.py`. -/
noncomputable def walk_forward (df : DF) (strat : StrategyFn)
    (grid : List (String × List ℚ)) (cost : CostModel) (cfg : WalkForwardConfig) :
    Except Err (List WFRow) :=
  walkForwardGo df strat grid cost cfg (df.index.max?.getD 0)
    (year_slices df.index (cfg.step_years : ℚ))

section WalkForwardShort

lemma yearSlicesGo_cases (e years : ℚ) (fuel : ℕ) (s : ℚ) :
    yearSlicesGo e years fuel s = [] ∨
    ∃ p rest, yearSlicesGo e years fuel s = (s, p) :: rest := by
  cases fuel with
  | zero => exact Or.inl rfl
  | succ f =>
    by_cases h : s < e
    · exact Or.inr ⟨_, _, by rw [yearSlicesGo, if_pos h]⟩
    · exact Or.inl (by rw [yearSlicesGo, if_neg h])

end WalkForwardShort

/-- C4 (amended): `walk_forward` returns zero out-of-sample rows whenever
the full date span is at most `train_years` — the loop breaks at the very
first slice because the training window already reaches the data's end.
The original bound `train_years + test_years` is too generous: a span
strictly between `train_years` and `train_years + test_years` can still
produce rows when the truncated test window keeps at least 20 bars (see
the counterexample). -/
theorem walk_forward_short_span (df : DF) (strat : StrategyFn)
    (grid : List (String × List ℚ)) (cost : CostModel) (cfg : WalkForwardConfig)
    (hspan : df.index.max?.getD 0 ≤ df.index.min?.getD 0 + (cfg.train_years : ℚ)) :
    walk_forward df strat grid cost cfg = .ok [] := by
  unfold walk_forward
  rcases hmin : df.index.min? with _ | mn
  · simp [year_slices, hmin, walkForwardGo]
  · rcases hmax : df.index.max? with _ | mx
    · simp [year_slices, hmin, hmax, walkForwardGo]
    · rw [hmin, hmax] at hspan
      simp only [Option.getD_some] at hspan
      simp only [year_slices, hmin, hmax, Option.getD_some]
      rcases yearSlicesGo_cases mx (cfg.step_years : ℚ) ((⌈mx - mn⌉).toNat + 1) mn with
        h | ⟨p, rest, h⟩
      · rw [h]
        simp [walkForwardGo]
      · rw [h]
        simp only [walkForwardGo]
        rw [if_pos (Or.inl hspan)]

/-- The always-flat strategy used by the validation-layer fixtures. -/
def strat0 : StrategyFn := fun df _ => .ok (df.rows.map (fun r => (r.ts, some 0)))

/-- 71 daily-spaced bars spanning 1.2 years: 50 bars in the first year and
21 bars in the next 0.2 years, all with defined zero returns. -/
def df_c4 : DF :=
  ⟨(List.range 50).map (fun k => ⟨(k : ℚ) / 50, none, some 0⟩) ++
    (List.range 21).map (fun j => ⟨1 + (j : ℚ) / 100, none, some 0⟩), false, true⟩

/-- `train_years = 1, test_years = 1, step_years = 1`. -/
def cfg_c4 : WalkForwardConfig := ⟨1, 1, 1⟩

set_option maxRecDepth 200000 in
set_option maxHeartbeats 2000000 in
/-- Counterexample to C4 as stated: the span (1.2 years) is strictly
shorter than `train_years + test_years = 2`, yet `walk_forward` produces
one out-of-sample row — the first training window ends strictly before the
data's end, the truncated test window keeps 20 bars, so the step is not
skipped. -/
theorem walk_forward_span_counterexample :
    (df_c4.index.max?.getD 0 - df_c4.index.min?.getD 0 <
      (cfg_c4.train_years : ℚ) + (cfg_c4.test_years : ℚ)) ∧
    Except.map (fun rows => rows.length)
      (walk_forward df_c4 strat0 [("x", [0])] cost_lo cfg_c4) = .ok 1 := by
  constructor
  · with_unfolding_all decide
  · with_unfolding_all rfl

/-- Witness for the amended C4: a two-bar frame spanning less than one
training year yields no rows. -/
theorem walk_forward_short_span_witness :
    walk_forward df_w strat0 [("x", [0])] cost_w ⟨3, 1, 1⟩ = .ok [] :=
  walk_forward_short_span df_w strat0 [("x", [0])] cost_w ⟨3, 1, 1⟩
    (by with_unfolding_all decide)

/-- Candidate-by-candidate evaluations of the grid, in iteration order. -/
noncomputable def candEvals (df : DF) (strat : StrategyFn) (cost : CostModel) :
    List Params → Except Err (List (Params × Perf))
  | [] => .ok []
  | c :: rest => do
    let perf ← evalCand df strat cost c
    let others ← candEvals df strat cost rest
    .ok ((c, perf) :: others)

section FoldBest
open Classical

/-- The pure accumulator of the `grid_search` loop. -/
noncomputable def foldBest : Option (Params × Perf) → List (Params × Perf) →
    Option (Params × Perf)
  | best, [] => best
  | best, e :: rest =>
    foldBest (match best with
      | none => some e
      | some b => if b.2.cagr < e.2.cagr then some e else some b) rest

end FoldBest

/-- `r` is the first element of `l` attaining the maximum CAGR: everything
before it is strictly smaller, everything after it no larger. -/
def FirstArgmax (r : Params × Perf) (l : List (Params × Perf)) : Prop :=
  ∃ pre post, l = pre ++ r :: post ∧ (∀ x ∈ pre, x.2.cagr < r.2.cagr) ∧
    (∀ x ∈ post, x.2.cagr ≤ r.2.cagr)

section GridSearchLemmas

lemma run_backtest_error_eq (df : DF) (position : PosSeries) (cost : CostModel)
    (se : ℚ) (e : Err) (h : run_backtest df position cost se = .error e) :
    e = .missingData := by
  unfold run_backtest at h
  by_cases hc : (!df.hasRet || (ret_col df).all (·.isNone)) = true
  · rw [if_pos hc] at h
    cases h
    rfl
  · rw [if_neg hc] at h
    cases h

lemma compute_performance_error_eq (equity returns : List (ℚ × Option ℚ)) (e : Err)
    (h : compute_performance equity returns = .error e) : e = .emptySeries := by
  unfold compute_performance at h
  cases hd : equity.filterMap (fun p => (p.2).map (fun x => (p.1, x))) with
  | nil => rw [hd] at h; cases h; rfl
  | cons a l => rw [hd] at h; cases h

lemma except_bind_error {A B : Type} (e : Err) (f : A → Except Err B) :
    (Except.error e >>= f : Except Err B) = Except.error e := rfl

lemma except_bind_ok {A B : Type} (a : A) (f : A → Except Err B) :
    (Except.ok a >>= f : Except Err B) = f a := rfl

lemma evalCand_ne_emptyGrid (df : DF) (strat : StrategyFn) (cost : CostModel)
    (c : Params) (hstrat : strat df c ≠ .error .emptyGrid) :
    evalCand df strat cost c ≠ .error .emptyGrid := by
  unfold evalCand
  cases hs : strat df c with
  | error e =>
    rw [except_bind_error]
    intro h
    apply hstrat
    rw [hs]
    injection h with he
    rw [he]
  | ok pos =>
    rw [except_bind_ok]
    cases hb : run_backtest df pos cost 1 with
    | error e =>
      rw [except_bind_error]
      obtain rfl := run_backtest_error_eq df pos cost 1 e hb
      simp
    | ok res =>
      rw [except_bind_ok]
      cases hp : compute_performance res.equity res.returns with
      | error e =>
        obtain rfl := compute_performance_error_eq _ _ e hp
        simp
      | ok perf => simp

end GridSearchLemmas

section GridSearchChar

lemma gridSearchGo_cons (df : DF) (strat : StrategyFn) (cost : CostModel)
    (c : Params) (rest : List Params) (best : Option (Params × Perf)) :
    gridSearchGo df strat cost (c :: rest) best =
      (evalCand df strat cost c) >>= (fun perf =>
        gridSearchGo df strat cost rest
          (match best with
           | none => some (c, perf)
           | some b => if b.2.cagr < perf.cagr then some (c, perf) else some b)) := rfl

lemma gridSearchGo_emptyGrid_iff (df : DF) (strat : StrategyFn) (cost : CostModel)
    (hstrat : ∀ c, strat df c ≠ .error .emptyGrid) :
    ∀ (cands : List Params) (best : Option (Params × Perf)),
      gridSearchGo df strat cost cands best = .error .emptyGrid ↔
        (cands = [] ∧ best = none) := by
  intro cands
  induction cands with
  | nil =>
    intro best
    cases best with
    | none => simp [gridSearchGo]
    | some b => simp [gridSearchGo]
  | cons c rest ih =>
    intro best
    rw [gridSearchGo_cons]
    cases he : evalCand df strat cost c with
    | error e =>
      rw [except_bind_error]
      constructor
      · intro h
        injection h with h2
        exact absurd (h2 ▸ he) (evalCand_ne_emptyGrid df strat cost c (hstrat c))
      · rintro ⟨h1, h2⟩
        exact absurd h1 (List.cons_ne_nil c rest)
    | ok perf =>
      rw [except_bind_ok, ih]
      constructor
      · rintro ⟨h1, h2⟩
        exfalso
        cases best with
        | none => simp at h2
        | some b =>
          have h3 : (if b.2.cagr < perf.cagr then some (c, perf) else some b) = none := h2
          by_cases hcb : b.2.cagr < perf.cagr
          · rw [if_pos hcb] at h3
            simp at h3
          · rw [if_neg hcb] at h3
            simp at h3
      · rintro ⟨h1, h2⟩
        exact absurd h1 (List.cons_ne_nil c rest)

lemma candEvals_cons (df : DF) (strat : StrategyFn) (cost : CostModel)
    (c : Params) (rest : List Params) :
    candEvals df strat cost (c :: rest) =
      (evalCand df strat cost c) >>= (fun perf =>
        (candEvals df strat cost rest) >>= (fun others =>
          .ok ((c, perf) :: others))) := rfl

lemma gridSearchGo_ok (df : DF) (strat : StrategyFn) (cost : CostModel) :
    ∀ (cands : List Params) (best : Option (Params × Perf)) (r : Params × Perf),
      gridSearchGo df strat cost cands best = .ok r →
      ∃ evs, candEvals df strat cost cands = .ok evs ∧ foldBest best evs = some r := by
  intro cands
  induction cands with
  | nil =>
    intro best r h
    cases best with
    | none => simp [gridSearchGo] at h
    | some b =>
      simp only [gridSearchGo] at h
      injection h with hb
      exact ⟨[], rfl, show (some b : Option (Params × Perf)) = some r from by rw [hb]⟩
  | cons c rest ih =>
    intro best r h
    rw [gridSearchGo_cons] at h
    cases he : evalCand df strat cost c with
    | error e =>
      rw [he, except_bind_error] at h
      cases h
    | ok perf =>
      rw [he, except_bind_ok] at h
      obtain ⟨evs, hevs, hfold⟩ := ih _ r h
      refine ⟨(c, perf) :: evs, ?_, ?_⟩
      · rw [candEvals_cons, he, except_bind_ok, hevs, except_bind_ok]
      · exact hfold

lemma firstArgmax_le {r : Params × Perf} {l : List (Params × Perf)}
    (h : FirstArgmax r l) : ∀ x ∈ l, x.2.cagr ≤ r.2.cagr := by
  obtain ⟨pre, post, rfl, hpre, hpost⟩ := h
  intro x hx
  rw [List.mem_append] at hx
  rcases hx with hx | hx
  · exact le_of_lt (hpre x hx)
  · rw [List.mem_cons] at hx
    rcases hx with rfl | hx
    · exact le_refl _
    · exact hpost x hx

lemma foldBest_some_argmax :
    ∀ (evs : List (Params × Perf)) (b r : Params × Perf),
      foldBest (some b) evs = some r → FirstArgmax r (b :: evs) := by
  intro evs
  induction evs with
  | nil =>
    intro b r h
    have h2 : (some b : Option (Params × Perf)) = some r := h
    injection h2 with hb
    subst hb
    exact ⟨[], [], rfl, by simp, by simp⟩
  | cons e evs ih =>
    intro b r h
    have h2 : foldBest (if b.2.cagr < e.2.cagr then some e else some b) evs = some r := h
    by_cases hc : b.2.cagr < e.2.cagr
    · rw [if_pos hc] at h2
      have harg := ih e r h2
      obtain ⟨pre, post, heq, hpre, hpost⟩ := harg
      refine ⟨b :: pre, post, by simp [heq], ?_, hpost⟩
      intro x hx
      rcases List.mem_cons.1 hx with rfl | hx
      · have her : e.2.cagr ≤ r.2.cagr :=
          firstArgmax_le ⟨pre, post, heq, hpre, hpost⟩ e (List.mem_cons_self e evs)
        exact lt_of_lt_of_le hc her
      · exact hpre x hx
    · rw [if_neg hc] at h2
      obtain ⟨pre, post, heq, hpre, hpost⟩ := ih b r h2
      cases pre with
      | nil =>
        simp only [List.nil_append] at heq
        injection heq with hbr hevs
        subst hbr
        refine ⟨[], e :: evs, rfl, by simp, ?_⟩
        intro x hx
        rcases List.mem_cons.1 hx with rfl | hx
        · exact le_of_not_lt hc
        · exact hpost x (hevs ▸ hx)
      | cons b0 pre0 =>
        simp only [List.cons_append] at heq
        injection heq with hb0 hevs
        subst hb0
        have hbr : b.2.cagr < r.2.cagr := hpre b (by simp)
        refine ⟨b :: e :: pre0, post, by simp [hevs], ?_, hpost⟩
        intro x hx
        rcases List.mem_cons.1 hx with rfl | hx2
        · exact hbr
        · rcases List.mem_cons.1 hx2 with rfl | hx3
          · exact lt_of_le_of_lt (le_of_not_lt hc) hbr
          · exact hpre x (by simp [hx3])

end GridSearchChar

/-- C8 (amended): `grid_search` fails with `EmptyGridError` exactly when
the Cartesian product of the parameter candidate sets is empty (for
strategies that do not themselves raise that error); an empty data window
instead surfaces the backtester's `MissingDataError` (see the
counterexample).  On success the returned pair is the first candidate, in
iteration order, attaining the maximum CAGR among all candidate
evaluations. -/
theorem grid_search_char (df : DF) (strat : StrategyFn) (grid : List (String × List ℚ))
    (cost : CostModel) (hstrat : ∀ c, strat df c ≠ .error .emptyGrid) :
    (grid_search df strat grid cost = .error .emptyGrid ↔ gridProduct grid = []) ∧
    (∀ r, grid_search df strat grid cost = .ok r →
      ∃ evs, candEvals df strat cost (gridProduct grid) = .ok evs ∧ FirstArgmax r evs) := by
  constructor
  · unfold grid_search
    rw [gridSearchGo_emptyGrid_iff df strat cost hstrat (gridProduct grid) none]
    simp
  · intro r hok
    obtain ⟨evs, hevs, hfold⟩ :=
      gridSearchGo_ok df strat cost (gridProduct grid) none r hok
    cases evs with
    | nil =>
      have h2 : (none : Option (Params × Perf)) = some r := hfold
      cases h2
    | cons e evs2 =>
      exact ⟨e :: evs2, hevs, foldBest_some_argmax evs2 e r hfold⟩

/-- An empty data frame (empty data window) with its columns present. -/
def df_empty : DF := ⟨[], true, true⟩

/-- Counterexample to C8 as stated: on an empty data window with one
runnable-looking candidate, `grid_search` propagates the backtester's
`MissingDataError` (the `isna().all()` guard is vacuously true on an empty
frame) — not `EmptyGridError` as the claim asserts for "zero runnable
candidates (e.g., an empty data window)". -/
theorem grid_search_empty_window_counterexample :
    grid_search df_empty strat0 [("x", [0])] cost_w = .error .missingData ∧
    Err.missingData ≠ Err.emptyGrid := by
  constructor
  · with_unfolding_all rfl
  · decide

/-- Witness for the amended C8: a grid with an empty candidate set fails
with `EmptyGridError`. -/
theorem grid_search_char_witness :
    grid_search df_w strat0 [("x", [])] cost_w = .error .emptyGrid :=
  (grid_search_char df_w strat0 [("x", [])] cost_w
    (fun c => by simp [strat0])).1.mpr rfl

/-- Abstract deterministic model of `np.random.default_rng(seed)` (an
external library, not part of this repository): a 64-bit LCG advanced once
per draw.  The claims below rely only on the stream being a pure function
of the seed and on `permutation` producing a true permutation; both hold
for this model. -/
def lcgNext (s : ℕ) : ℕ × ℕ :=
  let s2 := (6364136223846793005 * s + 1442695040888963407) % 18446744073709551616
  (s2, s2)

/-- Draw all elements of `xs` in random order without replacement — a
uniform-permutation model of `rng.permutation`.  The fuel equals the list
length at the top call. -/
def drawAll : ℕ → ℕ → List ℕ → List ℕ × ℕ
  | 0, s, _ => ([], s)
  | fuel + 1, s, xs =>
    if xs.length = 0 then ([], s)
    else
      let p := lcgNext s
      let j := p.1 % xs.length
      let rest := drawAll fuel p.2 (xs.eraseIdx j)
      (xs.getD j 0 :: rest.1, rest.2)

/-- `rng.permutation(k)`: a permutation of `range(k)` plus the advanced
generator state. -/
def rngPermutation (k : ℕ) (s : ℕ) : List ℕ × ℕ := drawAll k s (List.range k)

/-- `rets[i*block:(i+1)*block]`: the `i`-th contiguous block. -/
def blockOf (rets : List (Option ℚ)) (b i : ℕ) : List (Option ℚ) :=
  (rets.drop (i * b)).take b

/-- `np.concatenate([rets[i*block:(i+1)*block] for i in order])[:n]`. -/
def reshuffle (rets : List (Option ℚ)) (b : ℕ) (order : List ℕ) (n : ℕ) :
    List (Option ℚ) :=
  ((order.map (fun i => blockOf rets b i)).flatten).take n

/-- `df_shuf = df.copy(); df_shuf["RetSimple"] = vals`. -/
def setRet (df : DF) (vals : List (Option ℚ)) : DF :=
  ⟨List.zipWith (fun r v => ⟨r.ts, r.close, v⟩) df.rows vals, df.hasClose, true⟩

/-- The resampling loop of `permutation_test`: per iteration draw a block
order, rebuild the return series, rerun the (fixed) position series
through the backtester and record the CAGR.  The generator state threads
through the iterations exactly as the single `rng` object does in the
source. -/
noncomputable def permIterLoop (df : DF) (pos : PosSeries) (cost : CostModel)
    (rets : List (Option ℚ)) (b nblocks n : ℕ) :
    ℕ → ℕ → Except Err (List ℝ × ℕ)
  | 0, s => .ok ([], s)
  | k + 1, s => do
    let res ← run_backtest
      (setRet df (reshuffle rets b (rngPermutation nblocks s).1 n)) pos cost 1
    let perf ← compute_performance res.equity res.returns
    let rest ← permIterLoop df pos cost rets b nblocks n k (rngPermutation nblocks s).2
    .ok (perf.cagr :: rest.1, rest.2)

section CountGe
open Classical

/-- `np.sum(np.array(stats) >= cagr_true)`. -/
noncomputable def countGe (stats : List ℝ) (c : ℝ) : ℕ :=
  (stats.filter (fun x => decide (c ≤ x))).length

end CountGe

/-- The reported pair `{CAGR_true, p_value}`. -/
structure PermResult where
  cagrTrue : ℝ
  pValue : ℝ

/-- `permutation_test` from `deep_test.py`: true backtest first, then
`n_iter` block-shuffled reruns, and the add-one-smoothed p-value
`(count(shuffled >= true) + 1) / (n_iter + 1)`. -/
noncomputable def permutation_test (df : DF) (strat : StrategyFn) (params : Params)
    (cost : CostModel) (n_iter : ℕ) (block : ℤ) (seed : ℕ) : Except Err PermResult := do
  let pos ← strat df params
  let resT ← run_backtest df pos cost 1
  let perfT ← compute_performance resT.equity resT.returns
  let rets ← (if df.hasRet then .ok (ret_col df) else .error .keyError :
    Except Err (List (Option ℚ)))
  let n := rets.length
  let b := (max 1 block).toNat
  let loopOut ← permIterLoop df pos cost rets b ((n + b - 1) / b) n n_iter seed
  .ok ⟨perfT.cagr,
    ((countGe loopOut.1 perfT.cagr : ℝ) + 1) / ((n_iter : ℝ) + 1)⟩

/-- The `while total_len < n` segment-sampling loop of `bootstrap_ci`;
`rng.integers(0, 0)` on an empty segment list is the `ValueError`.  Fuel
`n` suffices since every segment is nonempty. -/
def segSampleGo (segments : List (List (Option ℚ))) (n : ℕ) :
    ℕ → ℕ → List (Option ℚ) → ℕ → Except Err (List (Option ℚ) × ℕ)
  | 0, s, acc, _ => .ok (acc, s)
  | fuel + 1, s, acc, total =>
    if total < n then
      if segments.length = 0 then .error .valueError
      else
        let p := lcgNext s
        segSampleGo segments n fuel p.2
          (acc ++ segments.getD (p.1 % segments.length) [])
          (total + (segments.getD (p.1 % segments.length) []).length)
    else .ok (acc, s)

/-- The resampling loop of `bootstrap_ci` (NumPy raises a `ValueError` for
`np.concatenate([])` when `n = 0` and the while loop never runs). -/
noncomputable def bootIterLoop (df : DF) (pos : PosSeries) (cost : CostModel)
    (segments : List (List (Option ℚ))) (n : ℕ) :
    ℕ → ℕ → Except Err (List ℝ × ℕ)
  | 0, s => .ok ([], s)
  | k + 1, s => do
    let boot ← (if n = 0 then .error .valueError else segSampleGo segments n n s [] 0 :
      Except Err (List (Option ℚ) × ℕ))
    let res ← run_backtest (setRet df (boot.1.take n)) pos cost 1
    let perf ← compute_performance res.equity res.returns
    let rest ← bootIterLoop df pos cost segments n k boot.2
    .ok (perf.cagr :: rest.1, rest.2)

section Quantile
open Classical

/-- `np.quantile(xs, q)` with the default linear interpolation. -/
noncomputable def quantile (xs : List ℝ) (q : ℝ) : ℝ :=
  let s := xs.mergeSort (fun a b => decide (a ≤ b))
  let m := s.length
  let h := q * ((m : ℝ) - 1)
  let lo := (⌊h⌋).toNat
  s.getD lo 0 + (h - (⌊h⌋ : ℝ)) * (s.getD (lo + 1) 0 - s.getD lo 0)

end Quantile

/-- `bootstrap_ci` from `deep_test.py`: fixed contiguous segments, sampled
with replacement to length `n`, and the empirical `alpha/2` and
`1 - alpha/2` quantiles of the resulting CAGRs. -/
noncomputable def bootstrap_ci (df : DF) (strat : StrategyFn) (params : Params)
    (cost : CostModel) (n_iter : ℕ) (block : ℤ) (seed : ℕ) (alpha : ℚ) :
    Except Err (ℝ × ℝ) := do
  let pos ← strat df params
  let rets ← (if df.hasRet then .ok (ret_col df) else .error .keyError :
    Except Err (List (Option ℚ)))
  let n := rets.length
  let b := (max 1 block).toNat
  let segments := ((List.range ((n + b - 1) / b)).map (fun i => i * b)).map
    (fun s0 => (rets.drop s0).take b)
  let loopOut ← bootIterLoop df pos cost segments n n_iter seed
  .ok (quantile loopOut.1 ((alpha : ℝ) / 2), quantile loopOut.1 (1 - (alpha : ℝ) / 2))

/-- C6: two-run determinism of the resampling protocols.  Both functions
are pure: their output is determined by the data frame, strategy,
parameters, cost model, iteration count, block size and seed alone — the
generator is constructed fresh from the seed argument (modelled by the
state threading in `permIterLoop`/`bootIterLoop`) and no other state
exists, so equal inputs give equal p-values, true CAGRs and interval
bounds. -/
theorem deeptest_determinism (df1 df2 : DF) (strat1 strat2 : StrategyFn)
    (params1 params2 : Params) (cost1 cost2 : CostModel) (n1 n2 : ℕ) (b1 b2 : ℤ)
    (seed1 seed2 : ℕ) (a1 a2 : ℚ)
    (hdf : df1 = df2) (hstrat : strat1 = strat2) (hparams : params1 = params2)
    (hcost : cost1 = cost2) (hn : n1 = n2) (hb : b1 = b2) (hseed : seed1 = seed2)
    (ha : a1 = a2) :
    permutation_test df1 strat1 params1 cost1 n1 b1 seed1 =
      permutation_test df2 strat2 params2 cost2 n2 b2 seed2 ∧
    bootstrap_ci df1 strat1 params1 cost1 n1 b1 seed1 a1 =
      bootstrap_ci df2 strat2 params2 cost2 n2 b2 seed2 a2 := by
  subst hdf hstrat hparams hcost hn hb hseed ha
  exact ⟨rfl, rfl⟩

/-- Witness for C6 at concrete inputs. -/
theorem deeptest_determinism_witness :
    permutation_test df_w strat0 [] cost_w 1 5 7 =
      permutation_test df_w strat0 [] cost_w 1 5 7 ∧
    bootstrap_ci df_w strat0 [] cost_w 1 5 7 (1/20) =
      bootstrap_ci df_w strat0 [] cost_w 1 5 7 (1/20) :=
  deeptest_determinism df_w df_w strat0 strat0 [] [] cost_w cost_w 1 1 5 5 7 7
    (1/20) (1/20) rfl rfl rfl rfl rfl rfl rfl rfl

section PermLemmas

lemma cons_eraseIdx_perm : ∀ (xs : List ℕ) (j : ℕ), j < xs.length →
    List.Perm (xs.getD j 0 :: xs.eraseIdx j) xs := by
  intro xs
  induction xs with
  | nil => intro j hj; simp at hj
  | cons x xs ih =>
    intro j hj
    cases j with
    | zero => simp
    | succ k =>
      have hk : k < xs.length := Nat.lt_of_succ_lt_succ hj
      simp only [List.getD_cons_succ, List.eraseIdx_cons_succ]
      exact (List.Perm.swap x (xs.getD k 0) (xs.eraseIdx k)).trans ((ih k hk).cons x)

lemma drawAll_perm : ∀ (fuel : ℕ) (s : ℕ) (xs : List ℕ), fuel = xs.length →
    List.Perm (drawAll fuel s xs).1 xs := by
  intro fuel
  induction fuel with
  | zero =>
    intro s xs h
    rw [List.eq_nil_of_length_eq_zero h.symm]
    simp [drawAll]
  | succ f ih =>
    intro s xs h
    have hpos : 0 < xs.length := by omega
    have hj : (lcgNext s).1 % xs.length < xs.length := Nat.mod_lt _ hpos
    have he : (xs.eraseIdx ((lcgNext s).1 % xs.length)).length = f := by
      rw [List.length_eraseIdx_of_lt hj]
      omega
    simp only [drawAll, if_neg (by omega : ¬ xs.length = 0)]
    exact (List.Perm.cons _ (ih _ _ he.symm)).trans
      (cons_eraseIdx_perm xs _ hj)

lemma rngPermutation_perm (k s : ℕ) :
    List.Perm (rngPermutation k s).1 (List.range k) :=
  drawAll_perm k s (List.range k) (by simp)

lemma sum_min_blocks (n b : ℕ) : ∀ m,
    (((List.range m).map (fun i => min b (n - i * b))).sum) = min (m * b) n := by
  intro m
  induction m with
  | zero => simp
  | succ m ih =>
    rw [List.range_succ, List.map_append, List.sum_append]
    simp only [List.map_cons, List.map_nil, List.sum_cons, List.sum_nil]
    rw [ih, Nat.succ_mul]
    generalize m * b = p
    omega

@[simp] lemma blockOf_length (rets : List (Option ℚ)) (b i : ℕ) :
    (blockOf rets b i).length = min b (rets.length - i * b) := by
  simp [blockOf]

lemma ceil_mul_ge (n b : ℕ) (hb : 1 ≤ b) : n ≤ ((n + b - 1) / b) * b := by
  rcases Nat.eq_zero_or_pos n with rfl | hn
  · exact Nat.zero_le _
  · have hq : (n + b - 1) / b = (n - 1) / b + 1 := by
      have h2 : n + b - 1 = (n - 1) + b := by omega
      rw [h2, Nat.add_div_right _ (by omega)]
    have hlt : (n - 1) / b < (n + b - 1) / b := by
      rw [hq]
      exact Nat.lt_succ_self _
    have h3 := (Nat.div_lt_iff_lt_mul (by omega : 0 < b)).1 hlt
    exact Nat.le_of_pred_lt h3

lemma flatten_blocks_length (rets : List (Option ℚ)) (b : ℕ) (order : List ℕ)
    (hb : 1 ≤ b)
    (hperm : List.Perm order (List.range ((rets.length + b - 1) / b))) :
    ((order.map (fun i => blockOf rets b i)).flatten).length = rets.length := by
  rw [List.length_flatten, List.map_map]
  have h1 : (order.map ((fun l : List (Option ℚ) => l.length) ∘
      (fun i => blockOf rets b i))).sum =
      ((List.range ((rets.length + b - 1) / b)).map
        ((fun l : List (Option ℚ) => l.length) ∘ (fun i => blockOf rets b i))).sum :=
    (hperm.map _).sum_eq
  rw [h1]
  have h2 : ((List.range ((rets.length + b - 1) / b)).map
      ((fun l : List (Option ℚ) => l.length) ∘ (fun i => blockOf rets b i))) =
      ((List.range ((rets.length + b - 1) / b)).map
        (fun i => min b (rets.length - i * b))) := by
    apply List.map_congr_left
    intro i _
    simp [Function.comp, blockOf]
  rw [h2, sum_min_blocks]
  exact Nat.min_eq_right (ceil_mul_ge rets.length b hb)

lemma reshuffle_length (rets : List (Option ℚ)) (b : ℕ) (order : List ℕ)
    (hb : 1 ≤ b)
    (hperm : List.Perm order (List.range ((rets.length + b - 1) / b))) :
    (reshuffle rets b order rets.length).length = rets.length := by
  unfold reshuffle
  rw [List.length_take, flatten_blocks_length rets b order hb hperm]
  exact Nat.min_self _

lemma reshuffle_mem {rets : List (Option ℚ)} {b : ℕ} {order : List ℕ} {n : ℕ}
    {x : Option ℚ} (hx : x ∈ reshuffle rets b order n) : x ∈ rets := by
  unfold reshuffle at hx
  have hx2 := List.mem_of_mem_take hx
  rw [List.mem_flatten] at hx2
  obtain ⟨l, hl, hxl⟩ := hx2
  rw [List.mem_map] at hl
  obtain ⟨i, _, rfl⟩ := hl
  unfold blockOf at hxl
  exact List.mem_of_mem_drop (List.mem_of_mem_take hxl)

end PermLemmas

section SuccessLemmas

lemma map_ret_zipWith : ∀ (rows : List Row) (vals : List (Option ℚ)),
    vals.length = rows.length →
    (List.zipWith (fun r v => Row.mk r.ts r.close v) rows vals).map (fun r => r.ret) =
      vals := by
  intro rows
  induction rows with
  | nil =>
    intro vals h
    rw [List.eq_nil_of_length_eq_zero h]
    rfl
  | cons r rows ih =>
    intro vals h
    cases vals with
    | nil => simp at h
    | cons v vs =>
      simp only [List.zipWith, List.map, List.cons.injEq]
      exact ⟨trivial, ih vs (by simpa using h)⟩

lemma setRet_rows_length (df : DF) (vals : List (Option ℚ))
    (h : vals.length = df.rows.length) :
    (setRet df vals).rows.length = df.rows.length := by
  simp [setRet, h]

lemma setRet_ret_col (df : DF) (vals : List (Option ℚ))
    (h : vals.length = df.rows.length) : ret_col (setRet df vals) = vals := by
  simp only [ret_col, setRet]
  exact map_ret_zipWith df.rows vals h

lemma run_backtest_ok_total (df : DF) (pos : PosSeries) (cost : CostModel) (se : ℚ)
    (hret : df.hasRet = true) (hex : ∃ r ∈ df.rows, r.ret.isSome) :
    run_backtest df pos cost se = .ok
      { equity := df.index.zip (equity_of df pos cost se)
        returns := df.index.zip (net_of df pos cost)
        position := df.index.zip (pos_of df pos)
        turnover := df.index.zip (turnover_of df pos)
        costs := df.index.zip (costs_of df pos cost) } := by
  rw [run_backtest_ok_iff]
  refine ⟨hret, ?_, rfl⟩
  obtain ⟨r, hr, hs⟩ := hex
  intro hall
  rw [List.all_eq_true] at hall
  have h2 := hall r.ret (List.mem_map.2 ⟨r, hr, rfl⟩)
  cases hrr : r.ret with
  | none => rw [hrr] at hs; simp at hs
  | some v => rw [hrr] at h2; simp at h2

lemma compute_performance_ok_exists (equity returns : List (ℚ × Option ℚ))
    (hne : ∃ q ∈ equity, q.2.isSome) :
    ∃ perf, compute_performance equity returns = .ok perf := by
  obtain ⟨q, hq, hqs⟩ := hne
  obtain ⟨x0, hx0⟩ := Option.isSome_iff_exists.1 hqs
  have hmem : (q.1, x0) ∈ equity.filterMap (fun p => (p.2).map (fun x => (p.1, x))) :=
    List.mem_filterMap.2 ⟨q, hq, by rw [hx0]; rfl⟩
  unfold compute_performance
  cases hd : equity.filterMap (fun p => (p.2).map (fun x => (p.1, x))) with
  | nil =>
    rw [hd] at hmem
    simp at hmem
  | cons e0 l =>
    simp only [hd]
    exact ⟨_, rfl⟩

lemma net_of_isSome (df : DF) (position : PosSeries) (cost : CostModel)
    (hsome : ∀ x ∈ ret_col df, x.isSome) :
    ∀ v ∈ net_of df position cost, v.isSome := by
  intro v hv
  obtain ⟨pn, hpn, c, hc, rfl⟩ := exists_of_mem_zipWith hv
  obtain ⟨p, hp, r, hr, rfl⟩ := exists_of_mem_zipWith hpn
  obtain ⟨y, hy⟩ := Option.isSome_iff_exists.1 (hsome r hr)
  subst hy
  simp [omul, osub]

lemma cumprod1_isSome : ∀ (xs : List (Option ℚ)) (acc : ℚ),
    (∀ x ∈ xs, x.isSome) → ∀ y ∈ cumprod1 acc xs, y.isSome := by
  intro xs
  induction xs with
  | nil => intro acc h y hy; simp [cumprod1] at hy
  | cons x xs ih =>
    intro acc h y hy
    obtain ⟨v, hv⟩ := Option.isSome_iff_exists.1 (h x (by simp))
    subst hv
    simp only [cumprod1, List.mem_cons] at hy
    rcases hy with rfl | hy
    · simp
    · exact ih (acc * v) (fun z hz => h z (by simp [hz])) y hy

lemma equity_of_isSome (df : DF) (position : PosSeries) (cost : CostModel) (se : ℚ)
    (hsome : ∀ x ∈ ret_col df, x.isSome) :
    ∀ y ∈ equity_of df position cost se, y.isSome := by
  intro y hy
  simp only [equity_of, List.mem_map] at hy
  obtain ⟨o, ho, rfl⟩ := hy
  have hf : ∀ x ∈ (net_of df position cost).map (fun o => o.map (fun x => 1 + x)),
      x.isSome := by
    intro x hx
    rw [List.mem_map] at hx
    obtain ⟨u, hu, rfl⟩ := hx
    obtain ⟨w, hw⟩ := Option.isSome_iff_exists.1 (net_of_isSome df position cost hsome u hu)
    subst hw
    simp
  obtain ⟨w, hw⟩ := Option.isSome_iff_exists.1 (cumprod1_isSome _ 1 hf o ho)
  subst hw
  simp

end SuccessLemmas

section PermIterOk

lemma permIterLoop_ok (df : DF) (pos : PosSeries) (cost : CostModel)
    (rets : List (Option ℚ)) (b : ℕ) (hb : 1 ≤ b)
    (hlen : rets.length = df.rows.length)
    (hsome : ∀ x ∈ rets, x.isSome)
    (hne : df.rows ≠ []) :
    ∀ (k : ℕ) (s : ℕ), ∃ stats sF,
      permIterLoop df pos cost rets b ((rets.length + b - 1) / b) rets.length k s =
        .ok (stats, sF) ∧ stats.length = k := by
  intro k
  induction k with
  | zero => intro s; exact ⟨[], s, rfl, rfl⟩
  | succ k ih =>
    intro s
    have hperm : List.Perm (rngPermutation ((rets.length + b - 1) / b) s).1
        (List.range ((rets.length + b - 1) / b)) := rngPermutation_perm _ _
    have hrlen : (reshuffle rets b (rngPermutation ((rets.length + b - 1) / b) s).1
        rets.length).length = rets.length := reshuffle_length rets b _ hb hperm
    have hrsome : ∀ x ∈ reshuffle rets b
        (rngPermutation ((rets.length + b - 1) / b) s).1 rets.length, x.isSome :=
      fun x hx => hsome x (reshuffle_mem hx)
    have hdf2len : (setRet df (reshuffle rets b
        (rngPermutation ((rets.length + b - 1) / b) s).1 rets.length)).rows.length =
        df.rows.length := setRet_rows_length df _ (hrlen.trans hlen)
    have hdf2ret : ret_col (setRet df (reshuffle rets b
        (rngPermutation ((rets.length + b - 1) / b) s).1 rets.length)) =
        reshuffle rets b (rngPermutation ((rets.length + b - 1) / b) s).1 rets.length :=
      setRet_ret_col df _ (hrlen.trans hlen)
    have hdf2ne : (setRet df (reshuffle rets b
        (rngPermutation ((rets.length + b - 1) / b) s).1 rets.length)).rows ≠ [] := by
      intro h0
      apply hne
      have h1 := hdf2len
      rw [h0] at h1
      exact List.eq_nil_of_length_eq_zero h1.symm
    have hex : ∃ r ∈ (setRet df (reshuffle rets b
        (rngPermutation ((rets.length + b - 1) / b) s).1 rets.length)).rows,
        r.ret.isSome := by
      cases hrows : (setRet df (reshuffle rets b
          (rngPermutation ((rets.length + b - 1) / b) s).1 rets.length)).rows with
      | nil => exact absurd hrows hdf2ne
      | cons r0 rs =>
        refine ⟨r0, by simp [hrows], ?_⟩
        have hmem : r0.ret ∈ ret_col (setRet df (reshuffle rets b
            (rngPermutation ((rets.length + b - 1) / b) s).1 rets.length)) := by
          simp [ret_col, hrows]
        rw [hdf2ret] at hmem
        exact hrsome _ hmem
    have hbt := run_backtest_ok_total (setRet df (reshuffle rets b
      (rngPermutation ((rets.length + b - 1) / b) s).1 rets.length)) pos cost 1 rfl hex
    have hexeq : ∃ p ∈ (setRet df (reshuffle rets b
        (rngPermutation ((rets.length + b - 1) / b) s).1 rets.length)).index.zip
          (equity_of (setRet df (reshuffle rets b
            (rngPermutation ((rets.length + b - 1) / b) s).1 rets.length)) pos cost 1),
        p.2.isSome := by
      have heqs := equity_of_isSome (setRet df (reshuffle rets b
        (rngPermutation ((rets.length + b - 1) / b) s).1 rets.length)) pos cost 1
        (by rw [hdf2ret]; exact hrsome)
      cases hidx : (setRet df (reshuffle rets b
          (rngPermutation ((rets.length + b - 1) / b) s).1 rets.length)).index with
      | nil =>
        exfalso
        apply hdf2ne
        have h1 : (setRet df (reshuffle rets b
            (rngPermutation ((rets.length + b - 1) / b) s).1 rets.length)).index.length
            = 0 := by rw [hidx]; rfl
        rw [index_length] at h1
        exact List.eq_nil_of_length_eq_zero h1
      | cons i0 irest =>
        cases heq : equity_of (setRet df (reshuffle rets b
            (rngPermutation ((rets.length + b - 1) / b) s).1 rets.length)) pos cost 1 with
        | nil =>
          exfalso
          apply hdf2ne
          have h1 := equity_of_length (setRet df (reshuffle rets b
            (rngPermutation ((rets.length + b - 1) / b) s).1 rets.length)) pos cost 1
          rw [heq] at h1
          exact List.eq_nil_of_length_eq_zero h1.symm
        | cons e0 erest =>
          exact ⟨(i0, e0), by simp [List.zip], heqs e0 (by simp [heq])⟩
    obtain ⟨perfI, hperfI⟩ := compute_performance_ok_exists
      ((setRet df (reshuffle rets b
        (rngPermutation ((rets.length + b - 1) / b) s).1 rets.length)).index.zip
          (equity_of (setRet df (reshuffle rets b
            (rngPermutation ((rets.length + b - 1) / b) s).1 rets.length)) pos cost 1))
      ((setRet df (reshuffle rets b
        (rngPermutation ((rets.length + b - 1) / b) s).1 rets.length)).index.zip
          (net_of (setRet df (reshuffle rets b
            (rngPermutation ((rets.length + b - 1) / b) s).1 rets.length)) pos cost))
      hexeq
    obtain ⟨stats, sF, hloop, hslen⟩ :=
      ih (rngPermutation ((rets.length + b - 1) / b) s).2
    refine ⟨perfI.cagr :: stats, sF, ?_, by simp [hslen]⟩
    simp only [permIterLoop]
    rw [hbt, except_bind_ok]
    dsimp only
    rw [hperfI, except_bind_ok, hloop, except_bind_ok]

end PermIterOk

section PermTestTheorem

lemma zip_equity_exists_isSome (df : DF) (pos : PosSeries) (cost : CostModel) (se : ℚ)
    (hsome : ∀ x ∈ ret_col df, x.isSome) (hne : df.rows ≠ []) :
    ∃ p ∈ df.index.zip (equity_of df pos cost se), p.2.isSome := by
  have heqs := equity_of_isSome df pos cost se hsome
  cases hidx : df.index with
  | nil =>
    exfalso
    apply hne
    have h1 : df.index.length = 0 := by rw [hidx]; rfl
    rw [index_length] at h1
    exact List.eq_nil_of_length_eq_zero h1
  | cons i0 irest =>
    cases heq : equity_of df pos cost se with
    | nil =>
      exfalso
      apply hne
      have h1 := equity_of_length df pos cost se
      rw [heq] at h1
      exact List.eq_nil_of_length_eq_zero h1.symm
    | cons e0 erest =>
      exact ⟨(i0, e0), by simp [List.zip], heqs e0 (by simp [heq])⟩

end PermTestTheorem

/-- C5: on a frame with a fully-defined return column and at least one bar,
`permutation_test` succeeds, its resampling loop records exactly `n_iter`
shuffled CAGRs, and the reported p-value is
`(count(shuffled_CAGR >= true_CAGR) + 1) / (n_iter + 1)`, which lies in
the half-open interval (0, 1]. -/
theorem permutation_test_pvalue (df : DF) (strat : StrategyFn) (params : Params)
    (cost : CostModel) (n_iter : ℕ) (block : ℤ) (seed : ℕ) (pos : PosSeries)
    (hstrat : strat df params = .ok pos)
    (hret : df.hasRet = true)
    (hsome : ∀ r ∈ df.rows, r.ret.isSome)
    (hne : df.rows ≠ [])
    (hn : 1 ≤ n_iter) :
    ∃ res stats sF,
      permutation_test df strat params cost n_iter block seed = .ok res ∧
      permIterLoop df pos cost (ret_col df) (max 1 block).toNat
        (((ret_col df).length + (max 1 block).toNat - 1) / (max 1 block).toNat)
        (ret_col df).length n_iter seed = .ok (stats, sF) ∧
      stats.length = n_iter ∧
      res.pValue = ((countGe stats res.cagrTrue : ℝ) + 1) / ((n_iter : ℝ) + 1) ∧
      0 < res.pValue ∧ res.pValue ≤ 1 := by
  have hb1 : 1 ≤ (max 1 block).toNat := by omega
  have hs2 : ∀ x ∈ ret_col df, x.isSome := by
    intro x hx
    rw [ret_col, List.mem_map] at hx
    obtain ⟨r, hr, rfl⟩ := hx
    exact hsome r hr
  obtain ⟨stats, sF, hloop, hslen⟩ := permIterLoop_ok df pos cost (ret_col df)
    (max 1 block).toNat hb1 (ret_col_length df) hs2 hne n_iter seed
  have hexT : ∃ r ∈ df.rows, r.ret.isSome := by
    cases hrows : df.rows with
    | nil => exact absurd hrows hne
    | cons r0 rs => exact ⟨r0, by simp [hrows], hsome r0 (by simp [hrows])⟩
  have hbtT := run_backtest_ok_total df pos cost 1 hret hexT
  obtain ⟨perfT, hperfT⟩ := compute_performance_ok_exists
    (df.index.zip (equity_of df pos cost 1)) (df.index.zip (net_of df pos cost))
    (zip_equity_exists_isSome df pos cost 1 hs2 hne)
  have hcle : countGe stats perfT.cagr ≤ n_iter := by
    rw [← hslen]
    exact List.length_filter_le _ _
  have hden : (0 : ℝ) < (n_iter : ℝ) + 1 := by positivity
  refine ⟨⟨perfT.cagr, ((countGe stats perfT.cagr : ℝ) + 1) / ((n_iter : ℝ) + 1)⟩,
    stats, sF, ?_, hloop, hslen, rfl, ?_, ?_⟩
  · unfold permutation_test
    rw [hstrat, except_bind_ok, hbtT, except_bind_ok]
    dsimp only
    rw [hperfT, except_bind_ok, hret, if_pos rfl, except_bind_ok, hloop,
      except_bind_ok]
  · positivity
  · rw [div_le_one hden]
    have hc2 : (countGe stats perfT.cagr : ℝ) ≤ (n_iter : ℝ) := by exact_mod_cast hcle
    linarith

/-- Witness for C5 at concrete inputs (`n_iter = 1`, block 5, seed 7). -/
theorem permutation_test_pvalue_witness :
    ∃ res stats sF,
      permutation_test df_w strat0 [] cost_w 1 5 7 = .ok res ∧
      permIterLoop df_w (df_w.rows.map (fun r : Row => ((r.ts : ℚ), (some 0 : Option ℚ)))) cost_w
        (ret_col df_w) (max 1 (5 : ℤ)).toNat
        (((ret_col df_w).length + (max 1 (5 : ℤ)).toNat - 1) / (max 1 (5 : ℤ)).toNat)
        (ret_col df_w).length 1 7 = .ok (stats, sF) ∧
      stats.length = 1 ∧
      res.pValue = ((countGe stats res.cagrTrue : ℝ) + 1) / ((1 : ℝ) + 1) ∧
      0 < res.pValue ∧ res.pValue ≤ 1 := by
  have h := permutation_test_pvalue df_w strat0 [] cost_w 1 5 7
    (df_w.rows.map (fun r : Row => ((r.ts : ℚ), (some 0 : Option ℚ)))) rfl rfl
    (by decide) (by decide) (le_refl 1)
  simpa using h
